import Mathlib

/-!
Verification of the event-sourced inventory ledger (C++ sources
`src/back/memory_database.cpp`, `src/back/persistence.cpp`,
`src/back/transaction.h`, `src/back/error_handling.h`).

Shallow embedding notes:
* C++ `std::string` is modelled by Lean `String`; a WAL line is a `String`
  and field splitting works on its `List Char` data.  Lexicographic
  comparison of timestamps (C++ `operator<` on `std::string`) is modelled
  by an executable lexicographic order on `List Char`.
* C++ `int` is modelled by `Int`; `std::stoi` range failures use the
  32-bit bounds `[-2147483648, 2147483647]`.
* C++ `double unit_price` is modelled by `ℚ`: every price appearing in
  the specified scenarios is exactly representable, and the WAL format
  prints prices with exactly two fractional digits, so rational
  arithmetic is the faithful idealisation of the code's arithmetic.
* `std::unordered_map` / `std::map` are modelled by association lists;
  `MemoryDatabase::appendTransaction`'s I/O dependencies (the result of
  `PersistenceManager::writeToWAL` and the WAL-assigned receipt
  timestamp `getCurrentTimestamp()`) are passed in as explicit
  parameters, and the WAL file contents are carried in the state as the
  list of written lines.
-/

deriving instance DecidableEq for Except

namespace Ledger

/-- Error codes from `src/back/error_handling.h` (only the ones reachable
from `MemoryDatabase::appendTransaction`). -/
inductive ErrorCode where
  | UNKNOWN_ERROR
  | INVALID_PARAMETER
  | DUPLICATE_TRANSACTION_ID
  | INVALID_TRANSACTION_TYPE
  | PERSISTENCE_INIT_FAILED
  | WAL_WRITE_FAILED
  | DATA_CORRUPTION_DETECTED
  deriving DecidableEq, Repr

/-- `TransactionRecord` from `src/back/transaction.h`. -/
structure TransactionRecord where
  trans_id : String
  item_id : String
  item_name : String
  type : String
  quantity : Int
  timestamp : String
  manager_id : String
  note : String
  category : String
  model : String
  unit : String
  unit_price : ℚ
  partner_id : String
  partner_name : String
  warehouse_id : String
  document_no : String
  deriving DecidableEq, Repr

/-- `TransactionRecord::isInbound` from `src/back/transaction.h`. -/
def TransactionRecord.isInbound (t : TransactionRecord) : Bool :=
  t.type = "in"

/-- `TransactionRecord::getTotalAmount` from `src/back/transaction.h`. -/
def TransactionRecord.getTotalAmount (t : TransactionRecord) : ℚ :=
  t.quantity * t.unit_price

/-- `ItemSummary` from `src/back/transaction.h`. -/
structure ItemSummary where
  item_id : String
  item_name : String
  category : String
  model : String
  unit : String
  latest_price : ℚ
  total_quantity : Int
  last_updated : String
  deriving DecidableEq, Repr

/-- `InventoryRecord` from `src/back/transaction.h`. -/
structure InventoryRecord where
  item_id : String
  warehouse_id : String
  quantity : Int
  avg_price : ℚ
  deriving DecidableEq, Repr

/-! ### Association-list helpers (model of `std::unordered_map` lookup/update) -/

/-- Find the value stored under key `a`, like `map.find(a)`. -/
def alookup {α β : Type} [DecidableEq α] : List (α × β) → α → Option β
  | [], _ => none
  | (k, v) :: rest, a => if k = a then some v else alookup rest a

/-- Update the entry under key `a` with `f`, inserting `f d` at the end if
the key is absent: the model of `map[a]` default-insertion followed by a
mutation. -/
def aupdate {α β : Type} [DecidableEq α] (d : β) (f : β → β) :
    List (α × β) → α → List (α × β)
  | [], a => [(a, f d)]
  | (k, v) :: rest, a =>
    if k = a then (k, f v) :: rest else (k, v) :: aupdate d f rest a

/-! ### Lexicographic string comparison (C++ `std::string::operator<`) -/

/-- Lexicographic strict order on character lists, the model of C++
`std::string` comparison (for well-formed UTF-8, byte order and
code-point order agree). -/
def lexLt : List Char → List Char → Bool
  | [], [] => false
  | [], _ :: _ => true
  | _ :: _, [] => false
  | a :: as, b :: bs =>
    if a < b then true else if b < a then false else lexLt as bs

/-- C++ `s < t` on `std::string`. -/
def strLt (s t : String) : Bool := lexLt s.data t.data

/-! ### Splitting a WAL line on `'|'`

`PersistenceManager::deserializeTransaction` splits with
`while (std::getline(iss, token, '|'))`.  `std::getline` fails (without
producing a token) exactly when it extracts no characters at all, i.e. at
end of input with an empty pending token — so a trailing `'|'` produces
no trailing empty field, and an empty line produces no fields. -/

/-- One `std::getline(iss, token, '|')` loop, `acc` holding the current
token's characters in reverse. -/
def getlineSplitAux (acc : List Char) : List Char → List (List Char)
  | [] => if acc = [] then [] else [acc.reverse]
  | c :: rest =>
    if c = '|' then acc.reverse :: getlineSplitAux [] rest
    else getlineSplitAux (c :: acc) rest

/-- Split a WAL line into its `'|'`-separated fields, as the `getline`
loop in `PersistenceManager::deserializeTransaction` does. -/
def splitPipe (s : String) : List String :=
  (getlineSplitAux [] s.data).map List.asString

/-! ### Decimal integer formatting and parsing -/

/-- One decimal digit as a character. -/
def digitChar (d : Nat) : Char :=
  if d = 0 then '0' else if d = 1 then '1' else if d = 2 then '2'
  else if d = 3 then '3' else if d = 4 then '4' else if d = 5 then '5'
  else if d = 6 then '6' else if d = 7 then '7' else if d = 8 then '8'
  else '9'

/-- Decimal digit characters of `n`, least significant first, with
enough `fuel` (any `fuel ≥ n` is enough). -/
def natCharsAux : Nat → Nat → List Char
  | 0, _ => []
  | fuel + 1, n =>
    if n = 0 then [] else digitChar (n % 10) :: natCharsAux fuel (n / 10)

/-- Decimal digit characters of a natural number, most significant first
(C++ `operator<<` on an integer). -/
def natChars (n : Nat) : List Char :=
  if n = 0 then ['0'] else (natCharsAux n n).reverse

/-- Decimal rendering of a C++ `int`. -/
def intChars (i : Int) : List Char :=
  if i < 0 then '-' :: natChars i.natAbs else natChars i.natAbs

/-- Numeric value of a digit-character run (most significant first). -/
def digitsVal (cs : List Char) : Nat :=
  cs.foldl (fun a c => a * 10 + (c.toNat - 48)) 0

/-- Model of `std::stoi` restricted to the shapes reachable from WAL
fields: an optional sign followed by a digit run (trailing non-digit
characters are ignored, as `stoi` ignores them); no digits or a value
outside 32-bit `int` range means the C++ call throws, which
`deserializeTransaction` turns into failure. -/
def stoiCore (ds : List Char) (neg : Bool) : Option Int :=
  let digs := ds.takeWhile Char.isDigit
  if digs = [] then none
  else
    let v : Int := cond neg (-(digitsVal digs : Int)) (digitsVal digs : Int)
    if v < -2147483648 ∨ 2147483647 < v then none else some v

/-- Model of `std::stoi` restricted to the shapes reachable from WAL
fields: see `stoiCore`. -/
def stoiChars : List Char → Option Int
  | [] => none
  | c :: rest =>
    if c = '-' then stoiCore rest true
    else if c = '+' then stoiCore rest false
    else stoiCore (c :: rest) false

/-- Model of `std::strtod`/`std::stod` restricted to plain decimal
notation (optional sign, digit run, optional fractional digit run):
the only shapes `serializeTransaction` can produce.  Trailing characters
are ignored; no digits at all means the C++ call throws. -/
def stodCore (ds : List Char) (sgn : ℚ) : Option ℚ :=
  let digs := ds.takeWhile Char.isDigit
  let rest := ds.drop digs.length
  if rest.head? = some '.' then
    let fr := rest.tail.takeWhile Char.isDigit
    if digs = [] ∧ fr = [] then none
    else some (sgn * ((digitsVal digs : ℚ) + (digitsVal fr : ℚ) / (10 : ℚ) ^ fr.length))
  else if digs = [] then none
  else some (sgn * (digitsVal digs : ℚ))

/-- Model of `std::strtod`/`std::stod` restricted to plain decimal
notation: see `stodCore`. -/
def stodChars : List Char → Option ℚ
  | [] => none
  | c :: rest =>
    if c = '-' then stodCore rest (-1)
    else if c = '+' then stodCore rest 1
    else stodCore (c :: rest) 1

/-- The price in rounded hundredths, computed on the rational's
numerator and denominator with integer floor division (the lemma
`priceCents_eq_round` below identifies this with `round (100 * p)`). -/
def priceCents (p : ℚ) : Int :=
  (200 * p.num + (p.den : Int)).fdiv (2 * (p.den : Int))

/-- The two-fractional-digit rendering of the cent remainder
`r = n % 100` (zero-padded to width 2). -/
def centFrac (r : Nat) : List Char :=
  if r < 10 then '0' :: natChars r else natChars r

/-- Rendering of a price by `std::fixed << std::setprecision(2)`: the
value rounded to hundredths, printed with exactly two fractional
digits. -/
def priceChars (p : ℚ) : List Char :=
  let c : Int := priceCents p
  let n := c.natAbs
  (if c < 0 then ['-'] else []) ++ natChars (n / 100) ++ '.' :: centFrac (n % 100)

/-! ### WAL serialization (`src/back/persistence.cpp`) -/

/-- `PersistenceManager::serializeTransaction`: the 16-field
`'|'`-joined WAL line.  `walTs` stands for the `getCurrentTimestamp()`
call, the WAL-assigned receipt time. -/
def serializeTransaction (walTs manager_id : String) (t : TransactionRecord) : String :=
  walTs ++ "|" ++ manager_id ++ "|" ++ t.trans_id ++ "|" ++ t.item_id ++ "|" ++
  t.item_name ++ "|" ++ t.type ++ "|" ++ (intChars t.quantity).asString ++ "|" ++
  (priceChars t.unit_price).asString ++ "|" ++ t.category ++ "|" ++ t.model ++ "|" ++
  t.unit ++ "|" ++ t.partner_id ++ "|" ++ t.partner_name ++ "|" ++ t.warehouse_id ++
  "|" ++ t.document_no ++ "|" ++ t.note

/-- `PersistenceManager::deserializeTransaction`: split on `'|'`, demand
exactly 16 fields, parse quantity with `stoi` and price with `stod`
(a throw from either makes the function return `false`), and take the
record's timestamp from field 0 (the WAL receipt time). -/
def deserializeTransaction (line : String) : Option (String × TransactionRecord) :=
  let fields := splitPipe line
  if fields.length = 16 then
    match stoiChars (fields.getD 6 "").data, stodChars (fields.getD 7 "").data with
    | some q, some p =>
      some (fields.getD 1 "",
        { trans_id := fields.getD 2 ""
          item_id := fields.getD 3 ""
          item_name := fields.getD 4 ""
          type := fields.getD 5 ""
          quantity := q
          timestamp := fields.getD 0 ""
          manager_id := ""
          note := fields.getD 15 ""
          category := fields.getD 8 ""
          model := fields.getD 9 ""
          unit := fields.getD 10 ""
          unit_price := p
          partner_id := fields.getD 11 ""
          partner_name := fields.getD 12 ""
          warehouse_id := fields.getD 13 ""
          document_no := fields.getD 14 "" })
    | _, _ => none
  else none

/-! ### Recovery and integrity validation (`src/back/persistence.cpp`) -/

/-- The line-by-line parse loop of `PersistenceManager::recoverFromWAL`
over the concatenated lines of all WAL segment files (in filename-sorted
order): empty lines are skipped, lines that fail to deserialize are
skipped and logged, every successfully parsed line contributes one
`(manager_id, record)` pair in file order. -/
def recoverLines (lines : List String) : List (String × TransactionRecord) :=
  lines.filterMap fun line =>
    if line = "" then none else deserializeTransaction line

/-- `PersistenceManager::recoverFromWAL`: group the parsed pairs into a
per-tenant map, appending each record to its tenant's vector in file
order (`data[manager_id].push_back(trans)`). -/
def recoverFromWAL (lines : List String) : List (String × List TransactionRecord) :=
  (recoverLines lines).foldl
    (fun m p => aupdate [] (fun ts => ts ++ [p.2]) m p.1) []

/-- The per-event field check inside
`PersistenceManager::validateDataIntegrity`: non-empty `trans_id` and
`item_id`, `type` either `"in"` or `"out"`, positive quantity. -/
def validEventFields (t : TransactionRecord) : Bool :=
  !(t.trans_id == "") && !(t.item_id == "") &&
  (t.type == "in" || t.type == "out") && decide (0 < t.quantity)

/-- The timestamp-order check inside
`PersistenceManager::validateDataIntegrity`: no adjacent pair with
`ts[i] < ts[i-1]`. -/
def timestampsOrdered : List TransactionRecord → Bool
  | a :: b :: rest => !strLt b.timestamp a.timestamp && timestampsOrdered (b :: rest)
  | _ => true

/-- `PersistenceManager::validateDataIntegrity` over a recovered
per-tenant map. -/
def validateDataIntegrity (data : List (String × List TransactionRecord)) : Bool :=
  data.all fun p => timestampsOrdered p.2 && p.2.all validEventFields

/-! ### The in-memory database (`src/back/memory_database.cpp`) -/

/-- `MemoryDatabase::ManagerData`: a tenant's event vector plus the
atomically published count. -/
structure ManagerData where
  transactions : List TransactionRecord
  count : Nat
  deriving DecidableEq, Repr

/-- The state of a `MemoryDatabase` plus the contents of its WAL: the
tenant map, the lines written to the WAL so far, and the two persistence
flags (`persistence_enabled_`, and whether `persistence_` is non-null). -/
structure DBState where
  managers : List (String × ManagerData)
  walLines : List String
  persistence_enabled : Bool
  has_persistence : Bool
  deriving DecidableEq, Repr

/-- The restore loop of the `MemoryDatabase` constructor: one
`ManagerData` per recovered tenant, with `count` set to the vector
size. -/
def restoreManagers (recovered : List (String × List TransactionRecord)) :
    List (String × ManagerData) :=
  recovered.map fun p => (p.1, ⟨p.2, p.2.length⟩)

/-- The `MemoryDatabase` constructor: when the `PersistenceManager`
constructor succeeds (`persistOk`), run WAL recovery over the data
directory's WAL lines; adopt the recovered data only when it is
non-empty and passes `validateDataIntegrity`, otherwise start empty.
When the `PersistenceManager` constructor throws, start empty with
persistence disabled. -/
def mkDatabase (persistOk : Bool) (walLines : List String) : DBState :=
  if persistOk then
    let recovered := recoverFromWAL walLines
    if recovered = [] then ⟨[], walLines, true, true⟩
    else if validateDataIntegrity recovered then
      ⟨restoreManagers recovered, walLines, true, true⟩
    else ⟨[], walLines, true, true⟩
  else ⟨[], walLines, false, false⟩

/-- Simulated restart for recovery-fidelity statements: construct a new
`MemoryDatabase` over the same data directory (the WAL lines written so
far). -/
def restartDatabase (st : DBState) : DBState :=
  mkDatabase true st.walLines

/-- `MemoryDatabase::appendTransaction`.  `walOk` is the boolean result
of `PersistenceManager::writeToWAL` (false models an unavailable or
failing WAL stream, in which case nothing is appended to the file);
`walTs` is the WAL receipt timestamp `getCurrentTimestamp()` used by
`serializeTransaction`. -/
def appendTransaction (st : DBState) (walOk : Bool) (walTs : String)
    (manager_id : String) (trans : TransactionRecord) :
    Except ErrorCode Unit × DBState :=
  if manager_id = "" then
    (.error .INVALID_PARAMETER, st)
  else if trans.trans_id = "" ∨ trans.item_id = "" then
    (.error .INVALID_PARAMETER, st)
  else if trans.type ≠ "in" ∧ trans.type ≠ "out" then
    (.error .INVALID_TRANSACTION_TYPE, st)
  else if trans.quantity ≤ 0 then
    (.error .INVALID_PARAMETER, st)
  else if (match alookup st.managers manager_id with
           | some data => (data.transactions.take data.count).any
               fun t => t.trans_id == trans.trans_id
           | none => false) then
    (.error .DUPLICATE_TRANSACTION_ID, st)
  else if st.persistence_enabled ∧ st.has_persistence ∧ walOk = false then
    (.error .WAL_WRITE_FAILED, st)
  else
    let st' :=
      if st.persistence_enabled ∧ st.has_persistence then
        { st with walLines :=
            st.walLines ++ [serializeTransaction walTs manager_id trans] }
      else st
    let newManagers := aupdate ⟨[], 0⟩
      (fun d => ⟨d.transactions ++ [trans], d.count + 1⟩) st'.managers manager_id
    (.ok (), { st' with managers := newManagers })

/-- `MemoryDatabase::getTransactions`: copy the first
`min(count, size)` records of the tenant's vector. -/
def getTransactions (st : DBState) (manager_id : String) : List TransactionRecord :=
  match alookup st.managers manager_id with
  | none => []
  | some data => data.transactions.take data.count

/-- `MemoryDatabase::getTransactionCount` (also
`getTotalTransactionCount` for a single tenant). -/
def getTransactionCount (st : DBState) (manager_id : String) : Nat :=
  match alookup st.managers manager_id with
  | none => 0
  | some data => data.count

/-- `MemoryDatabase::enablePersistence`. -/
def enablePersistence (st : DBState) (enable : Bool) : DBState :=
  { st with persistence_enabled := enable && st.has_persistence }

/-! ### Derived views (`src/back/memory_database.cpp`) -/

/-- One step of the `calculateInventory` fold: inbound adds quantity and
re-averages the price from the pre-step total value when the new
quantity is positive; outbound subtracts quantity and leaves the price
unchanged. -/
def inventoryStep (r : InventoryRecord) (t : TransactionRecord) : InventoryRecord :=
  if t.isInbound then
    let total : ℚ := (r.quantity : ℚ) * r.avg_price + (t.quantity : ℚ) * t.unit_price
    let q := r.quantity + t.quantity
    { r with quantity := q,
             avg_price := if 0 < q then total / (q : ℚ) else r.avg_price }
  else
    { r with quantity := r.quantity - t.quantity }

/-- The grouping fold of `MemoryDatabase::calculateInventory`, keyed by
`(warehouse_id, item_id)`; an absent key is first default-inserted with
the event's ids and zero quantity/price.  (The C++ `std::map` iterates
in key order while this association list keeps first-touch order; the
entry set is identical.) -/
def calcInventoryMap (ts : List TransactionRecord) :
    List ((String × String) × InventoryRecord) :=
  ts.foldl
    (fun m t => aupdate ⟨t.item_id, t.warehouse_id, 0, 0⟩
      (fun r => inventoryStep r t) m (t.warehouse_id, t.item_id)) []

/-- `MemoryDatabase::calculateInventory`: fold the tenant's published
events, then keep only positions with positive quantity, grouped by
warehouse. -/
def calculateInventory (st : DBState) (manager_id : String) (w : String) :
    List InventoryRecord :=
  (calcInventoryMap (getTransactions st manager_id)).filterMap
    fun p => if p.1.1 = w ∧ 0 < p.2.quantity then some p.2 else none

/-- The default-insertion of `buildItemSummaryMap`: the first event of
an item seeds every field, with `total_quantity` zero and
`last_updated` the event's timestamp. -/
def summaryInit (t : TransactionRecord) : ItemSummary :=
  ⟨t.item_id, t.item_name, t.category, t.model, t.unit, t.unit_price, 0, t.timestamp⟩

/-- One step of `buildItemSummaryMap`: update the running quantity, then
refresh the latest name/category/model/unit/price only when the event's
timestamp is strictly greater than the stored `last_updated`. -/
def summaryStep (s : ItemSummary) (t : TransactionRecord) : ItemSummary :=
  let s' := { s with total_quantity :=
      if t.isInbound then s.total_quantity + t.quantity
      else s.total_quantity - t.quantity }
  if strLt s'.last_updated t.timestamp then
    { s' with latest_price := t.unit_price, last_updated := t.timestamp,
              item_name := t.item_name, category := t.category,
              model := t.model, unit := t.unit }
  else s'

/-- `MemoryDatabase::buildItemSummaryMap`. -/
def buildItemSummaryMap (ts : List TransactionRecord) : List (String × ItemSummary) :=
  ts.foldl
    (fun m t => aupdate (summaryInit t) (fun s => summaryStep s t) m t.item_id) []


/-! ## Lemmas: association lists -/

theorem alookup_aupdate_self {α β : Type} [DecidableEq α] (d : β) (f : β → β)
    (m : List (α × β)) (k : α) :
    alookup (aupdate d f m k) k = some (f ((alookup m k).getD d)) := by
  induction m with
  | nil => simp [aupdate, alookup]
  | cons p rest ih =>
    obtain ⟨k', v⟩ := p
    by_cases h : k' = k
    · subst h; simp [aupdate, alookup]
    · simp [aupdate, alookup, h, ih]

theorem alookup_aupdate_ne {α β : Type} [DecidableEq α] (d : β) (f : β → β)
    (m : List (α × β)) {k k' : α} (h : k' ≠ k) :
    alookup (aupdate d f m k) k' = alookup m k' := by
  induction m with
  | nil => simp [aupdate, alookup, Ne.symm h]
  | cons p rest ih =>
    obtain ⟨k₀, v⟩ := p
    by_cases h0 : k₀ = k
    · subst h0
      simp [aupdate, alookup, Ne.symm h]
    · simp [aupdate, alookup, h0, ih]

theorem alookup_mem {α β : Type} [DecidableEq α] {m : List (α × β)} {k : α}
    {v : β} (h : alookup m k = some v) : (k, v) ∈ m := by
  induction m with
  | nil => simp [alookup] at h
  | cons p rest ih =>
    obtain ⟨k', v'⟩ := p
    by_cases hk : k' = k
    · subst hk
      simp [alookup] at h
      simp [h]
    · simp [alookup, hk] at h
      exact List.mem_cons_of_mem _ (ih h)

/-! ## Lemmas: lexicographic order -/

theorem lexLt_irrefl (cs : List Char) : lexLt cs cs = false := by
  induction cs with
  | nil => rfl
  | cons c rest ih => simp [lexLt, ih, lt_irrefl]

theorem strLt_irrefl (s : String) : strLt s s = false := lexLt_irrefl s.data

theorem lexLt_iff (cs ds : List Char) : lexLt cs ds = true ↔ List.lt cs ds := by
  induction cs generalizing ds with
  | nil =>
    cases ds with
    | nil =>
      simp only [lexLt, Bool.false_eq_true, false_iff]
      intro h; cases h
    | cons d ds' =>
      simp only [lexLt, true_iff]
      exact .nil d ds'
  | cons c cs' ih =>
    cases ds with
    | nil =>
      simp only [lexLt, Bool.false_eq_true, false_iff]
      intro h; cases h
    | cons d ds' =>
      by_cases h1 : c < d
      · simp only [lexLt, if_pos h1, true_iff]
        exact .head _ _ h1
      · by_cases h2 : d < c
        · simp only [lexLt, if_neg h1, if_pos h2, Bool.false_eq_true, false_iff]
          intro h
          cases h with
          | head _ _ h' => exact h1 h'
          | tail _ hb _ => exact hb h2
        · simp only [lexLt, if_neg h1, if_neg h2, ih]
          constructor
          · intro h; exact .tail h1 h2 h
          · intro h
            cases h with
            | head _ _ h' => exact absurd h' h1
            | tail _ _ h' => exact h'

/-- `strLt` agrees with Lean's lexicographic `<` on `String`, hence
`strLt t s = false` says exactly `s ≤ t`. -/
theorem strLt_iff_lt (s t : String) : strLt s t = true ↔ s < t := by
  rw [String.lt_iff_toList_lt]
  show lexLt s.data t.data = true ↔ List.Lex (· < ·) s.toList t.toList
  rw [← List.lt_iff_lex_lt]
  exact lexLt_iff s.data t.data

theorem strLt_false_iff_le (s t : String) : strLt t s = false ↔ s ≤ t := by
  rw [← Bool.not_eq_true, strLt_iff_lt]
  exact not_lt

/-! ## Lemmas: decimal formatting and parsing -/

theorem digitChar_isDigit (d : Nat) : (digitChar d).isDigit = true := by
  unfold digitChar
  repeat' split
  all_goals decide

theorem digitChar_ne_pipe (d : Nat) : digitChar d ≠ '|' := by
  unfold digitChar
  repeat' split
  all_goals decide

theorem digitChar_toNat (d : Nat) (h : d < 10) : (digitChar d).toNat - 48 = d := by
  interval_cases d <;> decide

theorem digitsVal_append_digit (xs : List Char) (c : Char) :
    digitsVal (xs ++ [c]) = digitsVal xs * 10 + (c.toNat - 48) := by
  simp [digitsVal, List.foldl_append]

theorem natCharsAux_val (fuel : Nat) :
    ∀ n : Nat, n ≤ fuel → digitsVal (natCharsAux fuel n).reverse = n := by
  induction fuel with
  | zero =>
    intro n hn
    interval_cases n
    rfl
  | succ fuel ih =>
    intro n hn
    cases n with
    | zero => rfl
    | succ m =>
      show digitsVal (natCharsAux (fuel + 1) (m + 1)).reverse = m + 1
      rw [natCharsAux, if_neg (Nat.succ_ne_zero m), List.reverse_cons,
        digitsVal_append_digit, ih ((m + 1) / 10) (by omega),
        digitChar_toNat ((m + 1) % 10) (Nat.mod_lt _ (by norm_num))]
      omega

theorem natChars_val (n : Nat) : digitsVal (natChars n) = n := by
  unfold natChars
  split
  · subst n
    rfl
  · exact natCharsAux_val n n le_rfl

theorem natCharsAux_digits (fuel : Nat) :
    ∀ n : Nat, ∀ c ∈ natCharsAux fuel n, c.isDigit = true := by
  induction fuel with
  | zero => intro n c hc; simp [natCharsAux] at hc
  | succ fuel ih =>
    intro n c hc
    cases n with
    | zero => simp [natCharsAux] at hc
    | succ m =>
      rw [natCharsAux, if_neg (Nat.succ_ne_zero m)] at hc
      rcases List.mem_cons.mp hc with h | h
      · subst h; exact digitChar_isDigit _
      · exact ih _ c h

theorem natChars_digits (n : Nat) : ∀ c ∈ natChars n, c.isDigit = true := by
  unfold natChars
  split
  · intro c hc; simp at hc; subst hc; decide
  · intro c hc
    exact natCharsAux_digits n n c (List.mem_reverse.mp hc)

theorem natChars_ne_nil (n : Nat) : natChars n ≠ [] := by
  unfold natChars
  split
  · simp
  · rename_i h
    cases n with
    | zero => exact absurd rfl h
    | succ m => simp [natCharsAux]

theorem isDigit_ne_minus {c : Char} (h : c.isDigit = true) : c ≠ '-' := by
  intro he; subst he; simp [Char.isDigit] at h

theorem isDigit_ne_plus {c : Char} (h : c.isDigit = true) : c ≠ '+' := by
  intro he; subst he; simp [Char.isDigit] at h

theorem isDigit_ne_pipe {c : Char} (h : c.isDigit = true) : c ≠ '|' := by
  intro he; subst he; simp [Char.isDigit] at h

theorem isDigit_ne_dot {c : Char} (h : c.isDigit = true) : c ≠ '.' := by
  intro he; subst he; simp [Char.isDigit] at h

theorem takeWhile_all {α : Type} {p : α → Bool} :
    ∀ l : List α, (∀ x ∈ l, p x = true) → l.takeWhile p = l := by
  intro l h
  induction l with
  | nil => rfl
  | cons x xs ih =>
    rw [List.takeWhile_cons, if_pos (h x (by simp))]
    rw [ih fun y hy => h y (by simp [hy])]

theorem takeWhile_append_stop {α : Type} {p : α → Bool} (xs ys : List α) (y : α)
    (hall : ∀ x ∈ xs, p x = true) (hy : p y = false) :
    (xs ++ y :: ys).takeWhile p = xs := by
  induction xs with
  | nil => simp [List.takeWhile_cons, hy]
  | cons x xs ih =>
    rw [List.cons_append, List.takeWhile_cons, if_pos (hall x (by simp))]
    rw [ih fun x' hx' => hall x' (by simp [hx'])]

/-- `std::stoi` inverts the decimal rendering of any in-range `int`. -/
theorem stoi_intChars (q : Int) (h1 : -2147483648 ≤ q) (h2 : q ≤ 2147483647) :
    stoiChars (intChars q) = some q := by
  have hdigs : ∀ n : Nat, (natChars n).takeWhile Char.isDigit = natChars n :=
    fun n => takeWhile_all _ (natChars_digits n)
  by_cases hq : q < 0
  · have : intChars q = '-' :: natChars q.natAbs := by
      unfold intChars; rw [if_pos hq]
    rw [this]
    show stoiChars ('-' :: natChars q.natAbs) = some q
    rw [stoiChars, if_pos rfl]
    unfold stoiCore
    simp only [hdigs, natChars_val, cond_true]
    rw [if_neg (natChars_ne_nil _)]
    have hrange : ¬(-(q.natAbs : Int) < -2147483648 ∨ 2147483647 < -(q.natAbs : Int)) := by
      omega
    rw [if_neg hrange]
    congr 1
    omega
  · have : intChars q = natChars q.natAbs := by
      unfold intChars; rw [if_neg hq]
    rw [this]
    obtain ⟨c, rest, hcr⟩ : ∃ c rest, natChars q.natAbs = c :: rest := by
      cases h : natChars q.natAbs with
      | nil => exact absurd h (natChars_ne_nil _)
      | cons c rest => exact ⟨c, rest, rfl⟩
    have hc : c.isDigit = true := natChars_digits _ c (by rw [hcr]; simp)
    rw [hcr, stoiChars, if_neg (isDigit_ne_minus hc), if_neg (isDigit_ne_plus hc)]
    unfold stoiCore
    rw [← hcr]
    simp only [hdigs, natChars_val, cond_false]
    rw [if_neg (natChars_ne_nil _)]
    have hrange : ¬((q.natAbs : Int) < -2147483648 ∨ 2147483647 < (q.natAbs : Int)) := by
      omega
    rw [if_neg hrange]
    congr 1
    omega

/-- The integer-division formula of `priceCents` computes the usual
rounding of `100 * p` to the nearest integer. -/
theorem priceCents_eq_round (p : ℚ) : priceCents p = round (100 * p) := by
  unfold priceCents
  set a := p.num with ha
  set b := p.den with hb
  have hb0 : b ≠ 0 := hb ▸ p.den_nz
  have hbq : ((b : ℕ) : ℚ) ≠ 0 := Nat.cast_ne_zero.mpr hb0
  have hp : p = (a : ℚ) / (b : ℚ) := by
    rw [ha, hb]
    exact (Rat.num_div_den p).symm
  rw [hp, round_eq]
  have key : 100 * ((a : ℚ) / (b : ℚ)) + 1 / 2 =
      (((200 * a + (b : ℤ)) : ℤ) : ℚ) / (((2 * b : ℕ)) : ℚ) := by
    have h2b : (((2 * b : ℕ)) : ℚ) = 2 * (b : ℚ) := by push_cast; ring
    rw [h2b]
    field_simp
    ring
  rw [key, Rat.floor_intCast_div_natCast]
  rw [Int.fdiv_eq_ediv _ (by positivity)]
  have h2bz : ((2 * b : ℕ) : ℤ) = 2 * (b : ℤ) := by push_cast; ring
  rw [h2bz]

theorem priceCents_hundredth (k : ℤ) : priceCents ((k : ℚ) / 100) = k := by
  rw [priceCents_eq_round]
  have h100 : (100 : ℚ) * ((k : ℚ) / 100) = (k : ℚ) := by
    field_simp
  rw [h100, round_intCast]

theorem digitsVal_cons_zero (l : List Char) : digitsVal ('0' :: l) = digitsVal l := by
  show List.foldl _ (0 * 10 + ('0'.toNat - 48)) l = List.foldl _ 0 l
  norm_num [show '0'.toNat = 48 from by decide]

/-- `natChars` of a one-digit number. -/
theorem natChars_one_digit {m : Nat} (h : m < 10) : natChars m = [digitChar m] := by
  interval_cases m <;> decide

/-- `natChars` of a two-digit number. -/
theorem natChars_two_digit {m : Nat} (h1 : 10 ≤ m) (h2 : m < 100) :
    natChars m = [digitChar (m / 10), digitChar (m % 10)] := by
  interval_cases m <;> decide

theorem centFrac_digits (r : Nat) : ∀ c ∈ centFrac r, c.isDigit = true := by
  unfold centFrac
  split
  · intro c hc
    rcases List.mem_cons.mp hc with h | h
    · subst h; decide
    · exact natChars_digits r c h
  · exact natChars_digits r

theorem centFrac_val {r : Nat} (_h : r < 100) : digitsVal (centFrac r) = r := by
  unfold centFrac
  split
  · rw [digitsVal_cons_zero, natChars_val]
  · rw [natChars_val]

theorem centFrac_length {r : Nat} (h : r < 100) : (centFrac r).length = 2 := by
  unfold centFrac
  split
  · rename_i h10
    rw [natChars_one_digit h10]
    rfl
  · rename_i h10
    rw [natChars_two_digit (by omega) h]
    rfl

/-- `std::stod` inverts the two-decimal price rendering of any exact
multiple of a hundredth. -/
theorem stod_priceChars (k : ℤ) :
    stodChars (priceChars ((k : ℚ) / 100)) = some ((k : ℚ) / 100) := by
  have hc := priceCents_hundredth k
  set n := ((k : ℚ) / 100 |> priceCents).natAbs with hn
  have hfrac_digits := centFrac_digits (n % 100)
  have hfrac_val : digitsVal (centFrac (n % 100)) = n % 100 :=
    centFrac_val (Nat.mod_lt _ (by norm_num))
  have hfrac_len : (centFrac (n % 100)).length = 2 :=
    centFrac_length (Nat.mod_lt _ (by norm_num))
  have hwhole_digits := natChars_digits (n / 100)
  have hwhole_ne := natChars_ne_nil (n / 100)
  have hdot : Char.isDigit '.' = false := by decide
  have hcore : stodCore (natChars (n / 100) ++ '.' :: centFrac (n % 100)) 1 =
      some ((n : ℚ) / 100) ∧
      stodCore (natChars (n / 100) ++ '.' :: centFrac (n % 100)) (-1) =
      some (-((n : ℚ) / 100)) := by
    have htake : (natChars (n / 100) ++ '.' :: centFrac (n % 100)).takeWhile
        Char.isDigit = natChars (n / 100) :=
      takeWhile_append_stop _ _ _ hwhole_digits hdot
    have hdrop : (natChars (n / 100) ++ '.' :: centFrac (n % 100)).drop
        (natChars (n / 100)).length = '.' :: centFrac (n % 100) :=
      List.drop_left _ _
    have hval : ((digitsVal (natChars (n / 100)) : ℚ) +
        (digitsVal (centFrac (n % 100)) : ℚ) /
          (10 : ℚ) ^ (centFrac (n % 100)).length) = (n : ℚ) / 100 := by
      rw [natChars_val, hfrac_val, hfrac_len]
      have hdm : ((n : ℚ)) = 100 * ((n / 100 : ℕ) : ℚ) + ((n % 100 : ℕ) : ℚ) := by
        exact_mod_cast congrArg (Nat.cast (R := ℚ)) (Nat.div_add_mod n 100).symm
      rw [hdm]
      ring
    constructor <;>
    · unfold stodCore
      simp only [htake, hdrop, List.head?, List.tail,
        takeWhile_all _ hfrac_digits]
      rw [if_pos trivial, if_neg (by simp [hwhole_ne])]
      rw [hval]
      norm_num
  by_cases hk : k < 0
  · have hneg : priceCents ((k : ℚ) / 100) < 0 := by rw [hc]; exact hk
    have hshape : priceChars ((k : ℚ) / 100) =
        '-' :: (natChars (n / 100) ++ '.' :: centFrac (n % 100)) := by
      simp only [priceChars]
      rw [← hn, if_pos hneg]
      rfl
    rw [hshape, stodChars, if_pos rfl, hcore.2]
    congr 1
    rw [hc] at hn
    rw [hn]
    have habs : ((k.natAbs : ℚ)) = -(k : ℚ) := by
      rw [Int.cast_natAbs, abs_of_neg hk]
      push_cast
      ring
    rw [habs]
    ring
  · have hpos : ¬ priceCents ((k : ℚ) / 100) < 0 := by rw [hc]; exact hk
    have hshape : priceChars ((k : ℚ) / 100) =
        natChars (n / 100) ++ '.' :: centFrac (n % 100) := by
      simp only [priceChars]
      rw [← hn, if_neg hpos]
      rfl
    obtain ⟨c, rest, hcr⟩ : ∃ c rest,
        natChars (n / 100) ++ '.' :: centFrac (n % 100) = c :: rest := by
      cases h : natChars (n / 100) with
      | nil => exact absurd h hwhole_ne
      | cons c cs => exact ⟨c, cs ++ '.' :: centFrac (n % 100), rfl⟩
    have hcdig : c.isDigit = true := by
      have : c ∈ natChars (n / 100) := by
        cases h : natChars (n / 100) with
        | nil => exact absurd h hwhole_ne
        | cons c0 cs =>
          rw [h] at hcr
          simp at hcr
          rw [hcr.1]
          simp
      exact hwhole_digits c this
    rw [hshape, hcr, stodChars, if_neg (isDigit_ne_minus hcdig),
      if_neg (isDigit_ne_plus hcdig), ← hcr, hcore.1]
    congr 1
    rw [hc] at hn
    rw [hn]
    have habs : ((k.natAbs : ℚ)) = (k : ℚ) := by
      rw [Int.cast_natAbs, abs_of_nonneg (not_lt.mp hk)]
    rw [habs]

/-! ## Lemmas: splitting on the pipe character -/

theorem asString_data (s : String) : s.data.asString = s := by
  cases s; rfl

theorem data_asString (cs : List Char) : cs.asString.data = cs := rfl

theorem getlineSplitAux_pipe (tok : List Char) (hp : ∀ c ∈ tok, c ≠ '|') :
    ∀ (acc rest : List Char),
      getlineSplitAux acc (tok ++ '|' :: rest) =
        (acc.reverse ++ tok) :: getlineSplitAux [] rest := by
  induction tok with
  | nil => intro acc rest; simp [getlineSplitAux]
  | cons c tok' ih =>
    intro acc rest
    have hc : c ≠ '|' := hp c (by simp)
    have hp' : ∀ c' ∈ tok', c' ≠ '|' := fun c' h => hp c' (by simp [h])
    simp only [List.cons_append, getlineSplitAux, if_neg hc, List.append_eq]
    rw [ih hp']
    simp

theorem getlineSplitAux_last (tok : List Char) (hp : ∀ c ∈ tok, c ≠ '|') :
    ∀ acc : List Char, acc.reverse ++ tok ≠ [] →
      getlineSplitAux acc tok = [acc.reverse ++ tok] := by
  induction tok with
  | nil => intro acc hne; simp at hne; simp [getlineSplitAux, hne]
  | cons c tok' ih =>
    intro acc hne
    have hc : c ≠ '|' := hp c (by simp)
    have hp' : ∀ c' ∈ tok', c' ≠ '|' := fun c' h => hp c' (by simp [h])
    simp only [getlineSplitAux, if_neg hc]
    rw [ih hp' (c :: acc) (by simp)]
    simp

/-- Join character-list fields with `'|'` (the shape of a serialized WAL
line). -/
def charsJoin : List (List Char) → List Char
  | [] => []
  | [f] => f
  | f :: fs => f ++ '|' :: charsJoin fs

theorem getlineSplitAux_charsJoin (fs : List (List Char)) (hne : fs ≠ [])
    (hp : ∀ f ∈ fs, ∀ c ∈ f, c ≠ '|') (hlast : fs.getLast hne ≠ []) :
    getlineSplitAux [] (charsJoin fs) = fs := by
  induction fs with
  | nil => exact absurd rfl hne
  | cons f fs' ih =>
    cases fs' with
    | nil =>
      simp [List.getLast] at hlast
      simpa [charsJoin] using
        getlineSplitAux_last f (hp f (by simp)) [] (by simpa using hlast)
    | cons g gs =>
      have h1 : charsJoin (f :: g :: gs) = f ++ '|' :: charsJoin (g :: gs) := rfl
      rw [h1, getlineSplitAux_pipe f (hp f (by simp))]
      rw [ih (by simp) (fun f' h' => hp f' (by simp [h']))
        (by simpa [List.getLast] using hlast)]
      simp

/-! ## Lemmas: WAL line round trip -/

/-- A string that contains no `'|'` field separator. -/
def pipeFree (s : String) : Bool := s.data.all (fun c => c ≠ '|')

theorem pipeFree_chars {s : String} (h : pipeFree s = true) :
    ∀ c ∈ s.data, c ≠ '|' := by
  intro c hc
  have := List.all_eq_true.mp h c hc
  simpa using this

theorem natChars_no_pipe (n : Nat) : ∀ c ∈ natChars n, c ≠ '|' :=
  fun c h => isDigit_ne_pipe (natChars_digits n c h)

theorem intChars_no_pipe (i : Int) : ∀ c ∈ intChars i, c ≠ '|' := by
  unfold intChars
  split
  · intro c hc
    rcases List.mem_cons.mp hc with h | h
    · subst h; decide
    · exact natChars_no_pipe _ c h
  · exact natChars_no_pipe _

theorem centFrac_no_pipe (r : Nat) : ∀ c ∈ centFrac r, c ≠ '|' :=
  fun c h => isDigit_ne_pipe (centFrac_digits r c h)

theorem priceChars_no_pipe (p : ℚ) : ∀ c ∈ priceChars p, c ≠ '|' := by
  unfold priceChars
  intro c hc
  simp only [List.mem_append, List.mem_cons] at hc
  rcases hc with (hs | hw) | hd | hf
  · rcases (by split at hs <;> simp_all : c = '-') with rfl
    decide
  · exact natChars_no_pipe _ c hw
  · subst hd; decide
  · exact centFrac_no_pipe _ c hf

theorem data_ne_nil {s : String} (h : s ≠ "") : s.data ≠ [] := by
  intro hd
  apply h
  cases s with
  | mk l => cases hd; rfl

/-- The serialized WAL line is the pipe-join of its sixteen fields. -/
theorem serialize_data (walTs m : String) (t : TransactionRecord) :
    (serializeTransaction walTs m t).data =
      charsJoin [walTs.data, m.data, t.trans_id.data, t.item_id.data,
        t.item_name.data, t.type.data, intChars t.quantity,
        priceChars t.unit_price, t.category.data, t.model.data, t.unit.data,
        t.partner_id.data, t.partner_name.data, t.warehouse_id.data,
        t.document_no.data, t.note.data] := by
  have hpd : ("|" : String).data = ['|'] := rfl
  simp [serializeTransaction, charsJoin, String.data_append, hpd, data_asString]

/-- Splitting a serialized line recovers exactly the sixteen fields,
provided no field contains `'|'` and the final field (the note) is
non-empty. -/
theorem splitPipe_serialize (walTs m : String) (t : TransactionRecord)
    (h1 : pipeFree walTs = true) (h2 : pipeFree m = true)
    (h3 : pipeFree t.trans_id = true) (h4 : pipeFree t.item_id = true)
    (h5 : pipeFree t.item_name = true) (h6 : pipeFree t.type = true)
    (h7 : pipeFree t.category = true) (h8 : pipeFree t.model = true)
    (h9 : pipeFree t.unit = true) (h10 : pipeFree t.partner_id = true)
    (h11 : pipeFree t.partner_name = true) (h12 : pipeFree t.warehouse_id = true)
    (h13 : pipeFree t.document_no = true) (h14 : pipeFree t.note = true)
    (hnote : t.note ≠ "") :
    splitPipe (serializeTransaction walTs m t) =
      [walTs, m, t.trans_id, t.item_id, t.item_name, t.type,
       (intChars t.quantity).asString, (priceChars t.unit_price).asString,
       t.category, t.model, t.unit, t.partner_id, t.partner_name,
       t.warehouse_id, t.document_no, t.note] := by
  unfold splitPipe
  rw [serialize_data]
  rw [getlineSplitAux_charsJoin _ (by simp)]
  · simp [asString_data]
  · intro f hf
    simp only [List.mem_cons, List.not_mem_nil, or_false] at hf
    rcases hf with rfl | rfl | rfl | rfl | rfl | rfl | rfl | rfl | rfl | rfl |
      rfl | rfl | rfl | rfl | rfl | rfl
    · exact pipeFree_chars h1
    · exact pipeFree_chars h2
    · exact pipeFree_chars h3
    · exact pipeFree_chars h4
    · exact pipeFree_chars h5
    · exact pipeFree_chars h6
    · exact intChars_no_pipe _
    · exact priceChars_no_pipe _
    · exact pipeFree_chars h7
    · exact pipeFree_chars h8
    · exact pipeFree_chars h9
    · exact pipeFree_chars h10
    · exact pipeFree_chars h11
    · exact pipeFree_chars h12
    · exact pipeFree_chars h13
    · exact pipeFree_chars h14
  · simpa [List.getLast] using data_ne_nil hnote

/-- Full WAL round trip: parsing a serialized line succeeds and restores
the fifteen caller-supplied fields, with the record's timestamp replaced
by the WAL receipt time (and the record's unserialized `manager_id`
mirror field reset to its default). -/
theorem deserialize_serialize (walTs m : String) (t : TransactionRecord)
    (h1 : pipeFree walTs = true) (h2 : pipeFree m = true)
    (h3 : pipeFree t.trans_id = true) (h4 : pipeFree t.item_id = true)
    (h5 : pipeFree t.item_name = true) (h6 : pipeFree t.type = true)
    (h7 : pipeFree t.category = true) (h8 : pipeFree t.model = true)
    (h9 : pipeFree t.unit = true) (h10 : pipeFree t.partner_id = true)
    (h11 : pipeFree t.partner_name = true) (h12 : pipeFree t.warehouse_id = true)
    (h13 : pipeFree t.document_no = true) (h14 : pipeFree t.note = true)
    (hnote : t.note ≠ "")
    (hqlo : -2147483648 ≤ t.quantity) (hqhi : t.quantity ≤ 2147483647)
    (hprice : ∃ k : ℤ, t.unit_price = (k : ℚ) / 100) :
    deserializeTransaction (serializeTransaction walTs m t) =
      some (m, { t with timestamp := walTs, manager_id := "" }) := by
  obtain ⟨k, hk⟩ := hprice
  have hsplit := splitPipe_serialize walTs m t h1 h2 h3 h4 h5 h6 h7 h8 h9 h10
    h11 h12 h13 h14 hnote
  unfold deserializeTransaction
  rw [hsplit]
  simp [data_asString, stoi_intChars _ hqlo hqhi, hk, stod_priceChars]

/-! ## Lemmas: recovery grouping -/

/-- The records a tenant receives from a parsed WAL stream, in file
order. -/
def tenantRecords (ps : List (String × TransactionRecord)) (tn : String) :
    List TransactionRecord :=
  (ps.filter fun p => p.1 = tn).map Prod.snd

theorem recoverLines_append (l1 l2 : List String) :
    recoverLines (l1 ++ l2) = recoverLines l1 ++ recoverLines l2 :=
  List.filterMap_append _ _ _

theorem deserialize_of_bad_split {bad : String}
    (h : (splitPipe bad).length ≠ 16) : deserializeTransaction bad = none := by
  unfold deserializeTransaction
  rw [if_neg h]

theorem recoverLines_skip (l1 l2 : List String) {bad : String}
    (h : deserializeTransaction bad = none) :
    recoverLines (l1 ++ bad :: l2) = recoverLines (l1 ++ l2) := by
  rw [recoverLines_append, recoverLines_append]
  congr 1
  show List.filterMap _ (bad :: l2) = _
  rw [List.filterMap_cons]
  split
  · rfl
  · rename_i heq
    by_cases hb : bad = ""
    · simp [hb] at heq
    · rw [if_neg hb, h] at heq
      cases heq

theorem tenantRecords_append (l1 l2 : List (String × TransactionRecord)) (tn : String) :
    tenantRecords (l1 ++ l2) tn = tenantRecords l1 tn ++ tenantRecords l2 tn := by
  simp [tenantRecords]

theorem alookup_groupAux (ps : List (String × TransactionRecord)) :
    ∀ (m : List (String × List TransactionRecord)) (tn : String),
      alookup (ps.foldl (fun acc p => aupdate [] (fun ts => ts ++ [p.2]) acc p.1) m) tn =
        match alookup m tn, tenantRecords ps tn with
        | none, [] => none
        | none, recs => some recs
        | some prior, recs => some (prior ++ recs) := by
  induction ps with
  | nil =>
    intro m tn
    show alookup m tn = _
    cases alookup m tn <;> simp [tenantRecords]
  | cons p ps ih =>
    intro m tn
    show alookup (ps.foldl _ (aupdate [] (fun ts => ts ++ [p.2]) m p.1)) tn = _
    by_cases hp : p.1 = tn
    · rw [ih, hp, alookup_aupdate_self]
      have hrec : tenantRecords (p :: ps) tn = p.2 :: tenantRecords ps tn := by
        simp [tenantRecords, hp]
      rw [hrec]
      cases alookup m tn <;> cases htr : tenantRecords ps tn <;> simp
    · rw [ih, alookup_aupdate_ne _ _ _ (fun hc => hp hc.symm)]
      have hrec : tenantRecords (p :: ps) tn = tenantRecords ps tn := by
        simp [tenantRecords, hp]
      rw [hrec]

/-- Lookup in the recovered per-tenant map is exactly the tenant's parsed
records in file order (absent tenants never get an entry). -/
theorem alookup_recoverFromWAL (lines : List String) (tn : String) :
    alookup (recoverFromWAL lines) tn =
      match tenantRecords (recoverLines lines) tn with
      | [] => none
      | recs => some recs := by
  unfold recoverFromWAL
  rw [alookup_groupAux]
  show (match alookup ([] : List (String × List TransactionRecord)) tn, _ with
    | none, [] => none | none, recs => some recs
    | some prior, recs => some (prior ++ recs)) = _
  cases tenantRecords (recoverLines lines) tn <;> rfl

/-! ## Lemmas: integrity validation -/

theorem timestampsOrdered_iff : ∀ ts : List TransactionRecord,
    timestampsOrdered ts = true ↔
      ts.Chain' (fun a b => a.timestamp ≤ b.timestamp)
  | [] => by simp [timestampsOrdered]
  | [a] => by simp [timestampsOrdered]
  | a :: b :: rest => by
    rw [timestampsOrdered, List.chain'_cons, Bool.and_eq_true, Bool.not_eq_true',
      strLt_false_iff_le, timestampsOrdered_iff (b :: rest), and_comm]

theorem validEventFields_iff (e : TransactionRecord) :
    validEventFields e = true ↔
      (e.trans_id ≠ "" ∧ e.item_id ≠ "" ∧
        (e.type = "in" ∨ e.type = "out") ∧ 0 < e.quantity) := by
  simp [validEventFields, and_assoc]

theorem validateDataIntegrity_iff (data : List (String × List TransactionRecord)) :
    validateDataIntegrity data = true ↔
      ∀ p ∈ data,
        p.2.Chain' (fun a b => a.timestamp ≤ b.timestamp) ∧
        ∀ e ∈ p.2, e.trans_id ≠ "" ∧ e.item_id ≠ "" ∧
          (e.type = "in" ∨ e.type = "out") ∧ 0 < e.quantity := by
  simp [validateDataIntegrity, List.all_eq_true, timestampsOrdered_iff,
    validEventFields_iff]

/-- The constructor adopts the recovered map exactly when validation
passes, otherwise it starts with an empty tenant map. -/
theorem mkDatabase_managers (lines : List String) :
    (mkDatabase true lines).managers =
      if validateDataIntegrity (recoverFromWAL lines) = true then
        restoreManagers (recoverFromWAL lines)
      else [] := by
  unfold mkDatabase
  rw [if_pos rfl]
  by_cases hrec : recoverFromWAL lines = []
  · rw [hrec]
    simp [validateDataIntegrity, restoreManagers]
  · rw [if_neg hrec]
    split <;> rfl

/-! ## Lemmas: the append path -/

/-- Well-formedness of a database state: every tenant's published count
equals its vector length.  This holds for every state reachable through
the constructor and `appendTransaction`. -/
def wfState (st : DBState) : Prop :=
  ∀ p ∈ st.managers, p.2.count = p.2.transactions.length

/-- The duplicate-scan condition of `appendTransaction` is a scan of the
published prefix, i.e. of `getTransactions`. -/
theorem dupCheck_eq (st : DBState) (manager_id : String) (t : TransactionRecord) :
    (match alookup st.managers manager_id with
     | some data => (data.transactions.take data.count).any
         fun e => e.trans_id == t.trans_id
     | none => false) =
      (getTransactions st manager_id).any (fun e => e.trans_id == t.trans_id) := by
  unfold getTransactions
  cases alookup st.managers manager_id <;> simp

/-- After the validation and duplicate gates pass, `appendTransaction`
reduces to the WAL barrier plus the publish step. -/
theorem appendTransaction_gates (st : DBState) (walOk : Bool)
    (walTs manager_id : String) (t : TransactionRecord)
    (hm : manager_id ≠ "") (htid : t.trans_id ≠ "") (hiid : t.item_id ≠ "")
    (hty : t.type = "in" ∨ t.type = "out") (hq : 0 < t.quantity)
    (hdup : ∀ e ∈ getTransactions st manager_id, e.trans_id ≠ t.trans_id) :
    appendTransaction st walOk walTs manager_id t =
      if st.persistence_enabled ∧ st.has_persistence ∧ walOk = false then
        (.error .WAL_WRITE_FAILED, st)
      else
        let st' :=
          if st.persistence_enabled ∧ st.has_persistence then
            { st with walLines :=
                st.walLines ++ [serializeTransaction walTs manager_id t] }
          else st
        let newManagers := aupdate ⟨[], 0⟩
          (fun d => ⟨d.transactions ++ [t], d.count + 1⟩) st'.managers manager_id
        (.ok (), { st' with managers := newManagers }) := by
  have hnodup : (getTransactions st manager_id).any
      (fun e => e.trans_id == t.trans_id) = false := by
    rw [List.any_eq_false]
    intro e he
    simpa using hdup e he
  unfold appendTransaction
  rw [if_neg hm, if_neg (not_or.mpr ⟨htid, hiid⟩),
    if_neg (by rcases hty with h | h <;> simp [h]),
    if_neg (not_le.mpr hq)]
  rw [dupCheck_eq]
  rw [hnodup]
  simp only [Bool.false_eq_true, if_false]

/-- A gated append that does not hit a failing WAL write succeeds, with
the event published and the WAL extended exactly when persistence is
active. -/
theorem appendTransaction_ok (st : DBState) (walOk : Bool)
    (walTs manager_id : String) (t : TransactionRecord)
    (hm : manager_id ≠ "") (htid : t.trans_id ≠ "") (hiid : t.item_id ≠ "")
    (hty : t.type = "in" ∨ t.type = "out") (hq : 0 < t.quantity)
    (hdup : ∀ e ∈ getTransactions st manager_id, e.trans_id ≠ t.trans_id)
    (hnofail : ¬ (st.persistence_enabled ∧ st.has_persistence ∧ walOk = false)) :
    appendTransaction st walOk walTs manager_id t =
      (Except.ok (), { st with
        walLines :=
          if st.persistence_enabled ∧ st.has_persistence then
            st.walLines ++ [serializeTransaction walTs manager_id t]
          else st.walLines,
        managers := aupdate ⟨[], 0⟩
          (fun d => ⟨d.transactions ++ [t], d.count + 1⟩)
          st.managers manager_id }) := by
  rw [appendTransaction_gates st walOk walTs manager_id t hm htid hiid hty hq hdup]
  rw [if_neg hnofail]
  by_cases hP : st.persistence_enabled ∧ st.has_persistence
  · simp only [if_pos hP]
  · simp only [if_neg hP]

/-- Reading a tenant after its publish step: one more published record,
appended at the tail. -/
theorem reads_after_publish (st : DBState) (manager_id : String)
    (t : TransactionRecord) (hwf : wfState st) (st2 : DBState)
    (hms : st2.managers = aupdate ⟨[], 0⟩
      (fun d => ⟨d.transactions ++ [t], d.count + 1⟩) st.managers manager_id) :
    getTransactionCount st2 manager_id = getTransactionCount st manager_id + 1 ∧
    getTransactions st2 manager_id = getTransactions st manager_id ++ [t] := by
  unfold getTransactionCount getTransactions
  rw [hms, alookup_aupdate_self]
  cases halo : alookup st.managers manager_id with
  | none => simp
  | some d =>
    have hcd : d.count = d.transactions.length := hwf _ (alookup_mem halo)
    constructor
    · rfl
    · show (d.transactions ++ [t]).take (d.count + 1) =
        d.transactions.take d.count ++ [t]
      rw [hcd, List.take_length]
      exact List.take_of_length_le (by simp)

/-! ## Lemmas: inventory fold -/

/-- The grouped-fold characterization of the inventory map: looking up a
`(warehouse, item)` key gives the fold of `inventoryStep` over exactly
that key's events, in published order. -/
theorem alookup_calcFold (ts : List TransactionRecord) :
    ∀ (m : List ((String × String) × InventoryRecord)) (k : String × String),
      alookup (ts.foldl (fun m t => aupdate ⟨t.item_id, t.warehouse_id, 0, 0⟩
          (fun r => inventoryStep r t) m (t.warehouse_id, t.item_id)) m) k =
        (ts.filter fun t => (t.warehouse_id, t.item_id) = k).foldl
          (fun o t => some (inventoryStep
            (o.getD ⟨t.item_id, t.warehouse_id, 0, 0⟩) t))
          (alookup m k) := by
  induction ts with
  | nil => intro m k; rfl
  | cons t ts ih =>
    intro m k
    show alookup (ts.foldl _ (aupdate _ _ m (t.warehouse_id, t.item_id))) k = _
    by_cases hk : (t.warehouse_id, t.item_id) = k
    · rw [ih, List.filter_cons_of_pos (by simp [hk]), List.foldl_cons]
      rw [← hk, alookup_aupdate_self]
    · rw [ih, List.filter_cons_of_neg (by simp [hk]),
        alookup_aupdate_ne _ _ _ (fun hc => hk hc.symm)]

theorem alookup_calcInventoryMap (ts : List TransactionRecord) (k : String × String) :
    alookup (calcInventoryMap ts) k =
      (ts.filter fun t => (t.warehouse_id, t.item_id) = k).foldl
        (fun o t => some (inventoryStep
          (o.getD ⟨t.item_id, t.warehouse_id, 0, 0⟩) t)) none := by
  unfold calcInventoryMap
  rw [alookup_calcFold]
  rfl

theorem mem_calculateInventory (st : DBState) (manager_id w : String)
    (r : InventoryRecord) :
    r ∈ calculateInventory st manager_id w ↔
      (∃ i, ((w, i), r) ∈ calcInventoryMap (getTransactions st manager_id)) ∧
        0 < r.quantity := by
  unfold calculateInventory
  rw [List.mem_filterMap]
  constructor
  · rintro ⟨⟨⟨w', i⟩, rec⟩, hmem, hcond⟩
    by_cases hc : w' = w ∧ 0 < rec.quantity
    · rw [if_pos hc] at hcond
      cases hcond
      exact ⟨⟨i, by rw [← hc.1]; exact hmem⟩, hc.2⟩
    · rw [if_neg hc] at hcond
      cases hcond
  · rintro ⟨⟨i, hmem⟩, hq⟩
    exact ⟨((w, i), r), hmem, by rw [if_pos ⟨rfl, hq⟩]⟩

/-! ## Lemmas: a run of appends and its recovery -/

/-- Run `appendTransaction` (with a succeeding WAL stream) over a list
of `(WAL receipt timestamp, event)` pairs for one tenant. -/
def appendAll (manager_id : String) : DBState → List (String × TransactionRecord) → DBState
  | st, [] => st
  | st, (walTs, t) :: rest =>
    appendAll manager_id (appendTransaction st true walTs manager_id t).2 rest

/-- What recovery reconstructs from one appended pair: the event with
its timestamp replaced by the WAL receipt time and the unserialized
`manager_id` mirror field reset. -/
def retagWAL (p : String × TransactionRecord) : TransactionRecord :=
  { p.2 with timestamp := p.1, manager_id := "" }

/-- The database state after a run of successful persistent appends for
a single tenant starting from an empty store. -/
def walRunState (manager_id : String) (done : List (String × TransactionRecord)) :
    DBState :=
  ⟨if done = [] then []
    else [(manager_id, ⟨done.map Prod.snd, done.length⟩)],
   done.map (fun p => serializeTransaction p.1 manager_id p.2), true, true⟩

/-- The field-validation conditions of a live append. -/
def validFields (t : TransactionRecord) : Prop :=
  t.trans_id ≠ "" ∧ t.item_id ≠ "" ∧ (t.type = "in" ∨ t.type = "out") ∧
    0 < t.quantity

/-- The conditions under which a WAL line survives the serialization
round trip: pipe-free fields, a non-empty final field, an in-range
quantity and a price that is an exact multiple of a hundredth. -/
def walClean (walTs : String) (t : TransactionRecord) : Prop :=
  (∃ k : ℤ, t.unit_price = (k : ℚ) / 100) ∧
  (pipeFree walTs = true ∧ pipeFree t.trans_id = true ∧
    pipeFree t.item_id = true ∧ pipeFree t.item_name = true ∧
    pipeFree t.type = true ∧ pipeFree t.category = true ∧
    pipeFree t.model = true ∧ pipeFree t.unit = true ∧
    pipeFree t.partner_id = true ∧ pipeFree t.partner_name = true ∧
    pipeFree t.warehouse_id = true ∧ pipeFree t.document_no = true ∧
    pipeFree t.note = true ∧ t.note ≠ "" ∧
    -2147483648 ≤ t.quantity ∧ t.quantity ≤ 2147483647)

theorem getTransactions_walRunState (manager_id : String)
    (done : List (String × TransactionRecord)) :
    getTransactions (walRunState manager_id done) manager_id =
      done.map Prod.snd := by
  unfold getTransactions walRunState
  cases hd : done with
  | nil => rfl
  | cons p rest =>
    rw [if_neg (by simp)]
    show (match (if manager_id = manager_id then _ else _ : Option ManagerData)
      with | none => _ | some d => _) = _
    rw [if_pos rfl]
    show ((p :: rest).map Prod.snd).take (p :: rest).length = _
    rw [← List.length_map (p :: rest) Prod.snd, List.take_length]

theorem appendAll_walRun (manager_id : String) (hm : manager_id ≠ "") :
    ∀ (todo done : List (String × TransactionRecord)),
      (∀ p ∈ done ++ todo, validFields p.2) →
      (done ++ todo).Pairwise (fun p q => p.2.trans_id ≠ q.2.trans_id) →
      appendAll manager_id (walRunState manager_id done) todo =
        walRunState manager_id (done ++ todo) := by
  intro todo
  induction todo with
  | nil => intro done _ _; simp [appendAll]
  | cons p todo ih =>
    intro done hv hnd
    obtain ⟨walTs, t⟩ := p
    have hvt : validFields t := hv (walTs, t) (by simp)
    obtain ⟨htid, hiid, hty, hq⟩ := hvt
    have hdup : ∀ e ∈ getTransactions (walRunState manager_id done) manager_id,
        e.trans_id ≠ t.trans_id := by
      rw [getTransactions_walRunState]
      intro e he
      obtain ⟨q, hq', rfl⟩ := List.mem_map.mp he
      have := (List.pairwise_append.mp hnd).2.2 q hq' (walTs, t) (by simp)
      exact this
    have hstep := appendTransaction_ok (walRunState manager_id done) true walTs
      manager_id t hm htid hiid hty hq hdup (by simp)
    show appendAll manager_id
      (appendTransaction (walRunState manager_id done) true walTs manager_id t).2
      todo = _
    rw [hstep]
    have hpost :
        ({ walRunState manager_id done with
          walLines :=
            if (walRunState manager_id done).persistence_enabled ∧
                (walRunState manager_id done).has_persistence then
              (walRunState manager_id done).walLines ++
                [serializeTransaction walTs manager_id t]
            else (walRunState manager_id done).walLines,
          managers := aupdate ⟨[], 0⟩
            (fun d => ⟨d.transactions ++ [t], d.count + 1⟩)
            (walRunState manager_id done).managers manager_id } : DBState) =
        walRunState manager_id (done ++ [(walTs, t)]) := by
      unfold walRunState
      simp only [and_self, if_true, true_and]
      cases hd : done with
      | nil => simp [aupdate]
      | cons p' rest =>
        rw [if_neg (by simp), if_neg (by simp)]
        simp [aupdate]
    rw [hpost]
    have hassoc : done ++ (walTs, t) :: todo = (done ++ [(walTs, t)]) ++ todo := by
      simp
    rw [hassoc] at hv hnd
    rw [ih (done ++ [(walTs, t)]) hv hnd]
    congr 1
    simp

theorem serialize_ne_empty (walTs manager_id : String) (t : TransactionRecord) :
    serializeTransaction walTs manager_id t ≠ "" := by
  intro h
  have hd := congrArg String.data h
  rw [serialize_data] at hd
  simp [charsJoin] at hd

/-- Recovery parses a serialized run back into the per-pair retagged
events, in order. -/
theorem recoverLines_serialized (manager_id : String) :
    ∀ prs : List (String × TransactionRecord),
      pipeFree manager_id = true →
      (∀ p ∈ prs, walClean p.1 p.2) →
      recoverLines (prs.map fun p => serializeTransaction p.1 manager_id p.2) =
        (prs.map retagWAL).map fun r => (manager_id, r) := by
  intro prs hmp hc
  induction prs with
  | nil => rfl
  | cons p prs ih =>
    obtain ⟨wpr, w01, w02, w03, w04, w05, w06, w07, w08, w09, w10, w11, w12,
      w13, w14, w15, w16⟩ := hc p (by simp)
    have h1 : (if serializeTransaction p.1 manager_id p.2 = "" then none
        else deserializeTransaction (serializeTransaction p.1 manager_id p.2)) =
        some (manager_id, retagWAL p) := by
      rw [if_neg (serialize_ne_empty p.1 manager_id p.2)]
      rw [deserialize_serialize p.1 manager_id p.2 w01 hmp w02 w03 w04 w05 w06
        w07 w08 w09 w10 w11 w12 w13 w14 w15 w16 wpr]
      rfl
    show List.filterMap _ (serializeTransaction p.1 manager_id p.2 ::
      prs.map fun q => serializeTransaction q.1 manager_id q.2) = _
    rw [@List.filterMap_cons_some _ _
      (fun line => if line = "" then none else deserializeTransaction line)
      (serializeTransaction p.1 manager_id p.2)
      (prs.map fun q => serializeTransaction q.1 manager_id q.2) _ h1]
    exact congrArg (List.cons (manager_id, retagWAL p))
      (ih fun q hq => hc q (by simp [hq]))

theorem groupAux_homog (manager_id : String) :
    ∀ (rs : List TransactionRecord) (acc : List TransactionRecord),
      ((rs.map fun r => (manager_id, r)).foldl
        (fun m p => aupdate [] (fun ts => ts ++ [p.2]) m p.1)
        [(manager_id, acc)]) = [(manager_id, acc ++ rs)] := by
  intro rs
  induction rs with
  | nil => intro acc; simp
  | cons r rs ih =>
    intro acc
    show (rs.map fun r => (manager_id, r)).foldl _
      (aupdate [] (fun ts => ts ++ [r]) [(manager_id, acc)] manager_id) = _
    rw [show aupdate [] (fun ts => ts ++ [r]) [(manager_id, acc)] manager_id =
      [(manager_id, acc ++ [r])] by simp [aupdate]]
    rw [ih (acc ++ [r])]
    simp

theorem recoverFromWAL_single (manager_id : String) (lines : List String)
    (rs : List TransactionRecord)
    (h : recoverLines lines = rs.map fun r => (manager_id, r)) :
    recoverFromWAL lines =
      if rs = [] then [] else [(manager_id, rs)] := by
  unfold recoverFromWAL
  rw [h]
  cases rs with
  | nil => rfl
  | cons r rs' =>
    rw [if_neg (by simp)]
    show (rs'.map fun r => (manager_id, r)).foldl _
      (aupdate [] (fun ts => ts ++ [r]) [] manager_id) = _
    rw [show aupdate [] (fun ts => ts ++ [r]) [] manager_id =
      [(manager_id, [r])] from rfl]
    rw [groupAux_homog manager_id rs' [r]]
    rfl


/-- `aupdate` with the publish step preserves count/length agreement. -/
theorem wf_aupdate (ms : List (String × ManagerData)) (k : String)
    (t : TransactionRecord)
    (hwf : ∀ p ∈ ms, p.2.count = p.2.transactions.length) :
    ∀ p ∈ aupdate ⟨[], 0⟩ (fun d => ⟨d.transactions ++ [t], d.count + 1⟩) ms k,
      p.2.count = p.2.transactions.length := by
  induction ms with
  | nil =>
    intro p hp
    simp [aupdate] at hp
    subst hp
    rfl
  | cons q ms ih =>
    intro p hp
    obtain ⟨k0, v⟩ := q
    rw [aupdate] at hp
    split at hp
    · rcases List.mem_cons.mp hp with rfl | hmem
      · have hv : v.count = v.transactions.length := hwf (k0, v) (by simp)
        show v.count + 1 = (v.transactions ++ [t]).length
        simp [hv]
      · exact hwf p (by simp [hmem])
    · rcases List.mem_cons.mp hp with rfl | hmem
      · exact hwf _ (by simp)
      · exact ih (fun q hq => hwf q (by simp [hq])) p hmem

/-- `wfState` is an invariant of `appendTransaction`. -/
theorem wfState_append (st : DBState) (walOk : Bool) (walTs manager_id : String)
    (t : TransactionRecord) (hwf : wfState st) :
    wfState (appendTransaction st walOk walTs manager_id t).2 := by
  unfold appendTransaction wfState
  split_ifs <;>
    first
      | exact hwf
      | exact wf_aupdate st.managers manager_id t hwf

/-- `wfState` holds for every freshly constructed database. -/
theorem wfState_mkDatabase : ∀ (persistOk : Bool) (lines : List String),
    wfState (mkDatabase persistOk lines)
  | true, lines => by
    intro p hp
    rw [mkDatabase_managers] at hp
    split at hp
    · obtain ⟨q, hq, rfl⟩ := List.mem_map.mp hp
      rfl
    · simp at hp
  | false, lines => by
    intro p hp
    simp [mkDatabase] at hp

/-! ## The claims -/

/-- C1: for every tenant and every event on which `appendTransaction`
reaches the WAL durability barrier (the event passes validation and the
duplicate scan, and persistence is active), a failing
`writeToWAL` (`walOk = false`) makes the call return `WAL_WRITE_FAILED`
with the database state — tenant map, published counts and WAL
contents — exactly as before the call. -/
theorem C1_wal_failure_atomic (st : DBState) (walTs manager_id : String)
    (t : TransactionRecord)
    (hpe : st.persistence_enabled = true) (hhp : st.has_persistence = true)
    (hm : manager_id ≠ "") (htid : t.trans_id ≠ "") (hiid : t.item_id ≠ "")
    (hty : t.type = "in" ∨ t.type = "out") (hq : 0 < t.quantity)
    (hdup : ∀ e ∈ getTransactions st manager_id, e.trans_id ≠ t.trans_id) :
    appendTransaction st false walTs manager_id t =
      (Except.error ErrorCode.WAL_WRITE_FAILED, st) := by
  rw [appendTransaction_gates st false walTs manager_id t hm htid hiid hty hq hdup]
  rw [if_pos ⟨hpe, hhp, rfl⟩]

/-- C1 witness. -/
theorem C1_wal_failure_atomic_witness :
    (∀ e ∈ getTransactions ⟨[], [], true, true⟩ "M1", e.trans_id ≠ "T1") ∧
    appendTransaction ⟨[], [], true, true⟩ false "2025-01-01T00:00:00.000Z" "M1"
        ⟨"T1", "I1", "Widget", "in", 5, "2025-01-01T00:00:00", "M1", "memo",
          "cat", "mod", "pcs", 0, "P1", "PN", "W1", "D1"⟩ =
      (Except.error ErrorCode.WAL_WRITE_FAILED, ⟨[], [], true, true⟩) :=
  ⟨by decide,
    C1_wal_failure_atomic ⟨[], [], true, true⟩ "2025-01-01T00:00:00.000Z" "M1" _
      rfl rfl (by decide) (by decide) (by decide) (by decide) (by decide)
      (by decide)⟩

/-- C2: for every tenant and valid, non-duplicate event, a successful
`appendTransaction` raises the tenant's published count by exactly one
and publishes the event at the tail of the published sequence, so
published order is append order. -/
theorem C2_append_publishes_at_tail (st : DBState) (walOk : Bool)
    (walTs manager_id : String) (t : TransactionRecord)
    (hwf : wfState st)
    (hm : manager_id ≠ "") (htid : t.trans_id ≠ "") (hiid : t.item_id ≠ "")
    (hty : t.type = "in" ∨ t.type = "out") (hq : 0 < t.quantity)
    (hdup : ∀ e ∈ getTransactions st manager_id, e.trans_id ≠ t.trans_id)
    (hok : (appendTransaction st walOk walTs manager_id t).1 = Except.ok ()) :
    getTransactionCount (appendTransaction st walOk walTs manager_id t).2
        manager_id = getTransactionCount st manager_id + 1 ∧
    getTransactions (appendTransaction st walOk walTs manager_id t).2
        manager_id = getTransactions st manager_id ++ [t] := by
  by_cases hfail : st.persistence_enabled ∧ st.has_persistence ∧ walOk = false
  · rw [appendTransaction_gates st walOk walTs manager_id t hm htid hiid hty hq
      hdup, if_pos hfail] at hok
    cases hok
  · rw [appendTransaction_ok st walOk walTs manager_id t hm htid hiid hty hq
      hdup hfail]
    exact reads_after_publish st manager_id t hwf _ rfl

/-- C2 witness. -/
theorem C2_append_publishes_at_tail_witness :
    (wfState ⟨[], [], false, false⟩ ∧
      (appendTransaction ⟨[], [], false, false⟩ true "TS" "M1"
        ⟨"T1", "I1", "Widget", "in", 5, "2025-01-01T00:00:00", "M1", "memo",
          "cat", "mod", "pcs", 0, "P1", "PN", "W1", "D1"⟩).1 = Except.ok ()) ∧
    getTransactionCount (appendTransaction ⟨[], [], false, false⟩ true "TS" "M1"
        ⟨"T1", "I1", "Widget", "in", 5, "2025-01-01T00:00:00", "M1", "memo",
          "cat", "mod", "pcs", 0, "P1", "PN", "W1", "D1"⟩).2 "M1" =
      getTransactionCount ⟨[], [], false, false⟩ "M1" + 1 ∧
    getTransactions (appendTransaction ⟨[], [], false, false⟩ true "TS" "M1"
        ⟨"T1", "I1", "Widget", "in", 5, "2025-01-01T00:00:00", "M1", "memo",
          "cat", "mod", "pcs", 0, "P1", "PN", "W1", "D1"⟩).2 "M1" =
      getTransactions ⟨[], [], false, false⟩ "M1" ++
        [⟨"T1", "I1", "Widget", "in", 5, "2025-01-01T00:00:00", "M1", "memo",
          "cat", "mod", "pcs", 0, "P1", "PN", "W1", "D1"⟩] :=
  ⟨⟨by simp [wfState], by rfl⟩,
    C2_append_publishes_at_tail ⟨[], [], false, false⟩ true "TS" "M1" _
      (by simp [wfState]) (by decide) (by decide) (by decide) (by decide)
      (by decide) (by decide) (by rfl)⟩

/-- C5 (amended): appending an event whose `trans_id` is already
published for the tenant returns `DUPLICATE_TRANSACTION_ID` with the
state unchanged, provided the event first passes the field validation
that precedes the duplicate scan; an invalid duplicate is reported as a
validation error instead (see the counterexample). -/
theorem C5_duplicate_rejected (st : DBState) (walOk : Bool)
    (walTs manager_id : String) (t : TransactionRecord)
    (hm : manager_id ≠ "") (htid : t.trans_id ≠ "") (hiid : t.item_id ≠ "")
    (hty : t.type = "in" ∨ t.type = "out") (hq : 0 < t.quantity)
    (hdup : ∃ e ∈ getTransactions st manager_id, e.trans_id = t.trans_id) :
    appendTransaction st walOk walTs manager_id t =
      (Except.error ErrorCode.DUPLICATE_TRANSACTION_ID, st) := by
  have hdupb : (getTransactions st manager_id).any
      (fun e => e.trans_id == t.trans_id) = true := by
    rw [List.any_eq_true]
    obtain ⟨e, he, heq⟩ := hdup
    exact ⟨e, he, by simp [heq]⟩
  unfold appendTransaction
  rw [if_neg hm, if_neg (not_or.mpr ⟨htid, hiid⟩),
    if_neg (by rcases hty with h | h <;> simp [h]),
    if_neg (not_le.mpr hq)]
  rw [dupCheck_eq, hdupb]
  simp only [if_true]

/-- C5 counterexample: the claim as stated omits that field validation
runs before the duplicate scan.  An event whose `trans_id` is already
published but whose quantity is `0` is rejected with
`INVALID_PARAMETER`, not `DUPLICATE_TRANSACTION_ID`. -/
theorem C5_invalid_duplicate_gets_validation_error :
    (∃ e ∈ getTransactions
        ⟨[("M1", ⟨[⟨"T1", "I1", "Widget", "in", 5, "TS0", "M1", "memo",
          "cat", "mod", "pcs", 0, "P1", "PN", "W1", "D1"⟩], 1⟩)], [], true, true⟩
        "M1", e.trans_id = "T1") ∧
    (appendTransaction
        ⟨[("M1", ⟨[⟨"T1", "I1", "Widget", "in", 5, "TS0", "M1", "memo",
          "cat", "mod", "pcs", 0, "P1", "PN", "W1", "D1"⟩], 1⟩)], [], true, true⟩
        true "TS1" "M1"
        ⟨"T1", "I1", "Widget", "in", 0, "TS1", "M1", "memo",
          "cat", "mod", "pcs", 0, "P1", "PN", "W1", "D1"⟩).1 ≠
      Except.error ErrorCode.DUPLICATE_TRANSACTION_ID := by
  constructor
  · decide
  · decide

/-- C5 witness (for the amended theorem). -/
theorem C5_duplicate_rejected_witness :
    (∃ e ∈ getTransactions
        ⟨[("M1", ⟨[⟨"T1", "I1", "Widget", "in", 5, "TS0", "M1", "memo",
          "cat", "mod", "pcs", 0, "P1", "PN", "W1", "D1"⟩], 1⟩)], [], true, true⟩
        "M1", e.trans_id = "T1") ∧
    appendTransaction
        ⟨[("M1", ⟨[⟨"T1", "I1", "Widget", "in", 5, "TS0", "M1", "memo",
          "cat", "mod", "pcs", 0, "P1", "PN", "W1", "D1"⟩], 1⟩)], [], true, true⟩
        true "TS1" "M1"
        ⟨"T1", "I2", "Widget", "in", 3, "TS1", "M1", "memo",
          "cat", "mod", "pcs", 0, "P1", "PN", "W1", "D1"⟩ =
      (Except.error ErrorCode.DUPLICATE_TRANSACTION_ID,
        ⟨[("M1", ⟨[⟨"T1", "I1", "Widget", "in", 5, "TS0", "M1", "memo",
          "cat", "mod", "pcs", 0, "P1", "PN", "W1", "D1"⟩], 1⟩)], [], true, true⟩) :=
  ⟨by decide,
    C5_duplicate_rejected _ true "TS1" "M1" _
      (by decide) (by decide) (by decide) (by decide) (by decide) (by decide)⟩

/-- C10: with persistence disabled — `enablePersistence false` was
called, or the `PersistenceManager` constructor threw so no manager
exists — a valid, non-duplicate append skips the WAL barrier entirely:
it succeeds, publishes the event, and writes nothing to the WAL,
regardless of what a WAL write would have returned. -/
theorem C10_disabled_persistence_append (st : DBState) (walOk : Bool)
    (walTs manager_id : String) (t : TransactionRecord)
    (hoff : st.persistence_enabled = false ∨ st.has_persistence = false)
    (hwf : wfState st)
    (hm : manager_id ≠ "") (htid : t.trans_id ≠ "") (hiid : t.item_id ≠ "")
    (hty : t.type = "in" ∨ t.type = "out") (hq : 0 < t.quantity)
    (hdup : ∀ e ∈ getTransactions st manager_id, e.trans_id ≠ t.trans_id) :
    (appendTransaction st walOk walTs manager_id t).1 = Except.ok () ∧
    (appendTransaction st walOk walTs manager_id t).2.walLines = st.walLines ∧
    getTransactionCount (appendTransaction st walOk walTs manager_id t).2
        manager_id = getTransactionCount st manager_id + 1 ∧
    getTransactions (appendTransaction st walOk walTs manager_id t).2
        manager_id = getTransactions st manager_id ++ [t] := by
  have hno : ¬ (st.persistence_enabled ∧ st.has_persistence ∧ walOk = false) := by
    rcases hoff with h | h <;> simp [h]
  have hno2 : ¬ (st.persistence_enabled ∧ st.has_persistence) := by
    rcases hoff with h | h <;> simp [h]
  rw [appendTransaction_ok st walOk walTs manager_id t hm htid hiid hty hq
    hdup hno]
  refine ⟨rfl, ?_, ?_⟩
  · show (if st.persistence_enabled ∧ st.has_persistence then
        st.walLines ++ [serializeTransaction walTs manager_id t]
      else st.walLines) = st.walLines
    rw [if_neg hno2]
  · exact reads_after_publish st manager_id t hwf _ rfl

/-- C10 witness. -/
theorem C10_disabled_persistence_append_witness :
    ((⟨[], ["line0"], false, false⟩ : DBState).persistence_enabled = false ∨
      (⟨[], ["line0"], false, false⟩ : DBState).has_persistence = false) ∧
    (appendTransaction ⟨[], ["line0"], false, false⟩ false "TS" "M1"
        ⟨"T1", "I1", "Widget", "out", 2, "TS", "M1", "memo",
          "cat", "mod", "pcs", 0, "P1", "PN", "W1", "D1"⟩).1 = Except.ok () ∧
    (appendTransaction ⟨[], ["line0"], false, false⟩ false "TS" "M1"
        ⟨"T1", "I1", "Widget", "out", 2, "TS", "M1", "memo",
          "cat", "mod", "pcs", 0, "P1", "PN", "W1", "D1"⟩).2.walLines =
      (⟨[], ["line0"], false, false⟩ : DBState).walLines :=
  ⟨Or.inl rfl,
    (C10_disabled_persistence_append ⟨[], ["line0"], false, false⟩ false "TS" "M1" _
      (Or.inl rfl) (by simp [wfState]) (by decide) (by decide) (by decide)
      (by decide) (by decide) (by decide)).1,
    (C10_disabled_persistence_append ⟨[], ["line0"], false, false⟩ false "TS" "M1" _
      (Or.inl rfl) (by simp [wfState]) (by decide) (by decide) (by decide)
      (by decide) (by decide) (by decide)).2.1⟩

/-- C6: `validateDataIntegrity` accepts a recovered per-tenant map
exactly when every tenant's sequence has non-decreasing timestamps and
every event passes the live-append field rules; one violation anywhere
fails the whole validation, and on failure the constructor adopts
nothing and starts with an empty tenant map. -/
theorem C6_validation_all_or_nothing
    (data : List (String × List TransactionRecord)) (lines : List String) :
    (validateDataIntegrity data = true ↔
      ∀ p ∈ data,
        p.2.Chain' (fun a b => a.timestamp ≤ b.timestamp) ∧
        ∀ e ∈ p.2, e.trans_id ≠ "" ∧ e.item_id ≠ "" ∧
          (e.type = "in" ∨ e.type = "out") ∧ 0 < e.quantity) ∧
    (mkDatabase true lines).managers =
      (if validateDataIntegrity (recoverFromWAL lines) = true then
        restoreManagers (recoverFromWAL lines)
      else []) :=
  ⟨validateDataIntegrity_iff data, mkDatabase_managers lines⟩

/-- C7: a WAL line that does not split into exactly 16 fields is skipped
during recovery without aborting it: the parsed stream, the per-tenant
map, and every tenant's recovered sequence are exactly those of the
surrounding well-formed lines, in file order. -/
theorem C7_malformed_line_skipped (l1 l2 : List String) (bad : String)
    (h : (splitPipe bad).length ≠ 16) :
    recoverLines (l1 ++ bad :: l2) = recoverLines (l1 ++ l2) ∧
    (∀ tn, alookup (recoverFromWAL (l1 ++ bad :: l2)) tn =
      alookup (recoverFromWAL (l1 ++ l2)) tn) ∧
    (∀ tn, tenantRecords (recoverLines (l1 ++ bad :: l2)) tn =
      tenantRecords (recoverLines l1) tn ++ tenantRecords (recoverLines l2) tn) := by
  have hskip := recoverLines_skip l1 l2 (deserialize_of_bad_split h)
  refine ⟨hskip, fun tn => ?_, fun tn => ?_⟩
  · rw [alookup_recoverFromWAL, alookup_recoverFromWAL, hskip]
  · rw [hskip, recoverLines_append, tenantRecords_append]

/-- C7 witness. -/
theorem C7_malformed_line_skipped_witness :
    (splitPipe "corrupted-line").length ≠ 16 ∧
    recoverLines
        (["TSA|M1|T1|I1|N1|in|1|0.00|c|m|u|p|pn|W1|D1|note1"] ++
          "corrupted-line" ::
            ["TSB|M1|T2|I2|N2|out|2|0.00|c|m|u|p|pn|W1|D2|note2"]) =
      recoverLines
        (["TSA|M1|T1|I1|N1|in|1|0.00|c|m|u|p|pn|W1|D1|note1"] ++
          ["TSB|M1|T2|I2|N2|out|2|0.00|c|m|u|p|pn|W1|D2|note2"]) :=
  ⟨by decide,
    (C7_malformed_line_skipped
      ["TSA|M1|T1|I1|N1|in|1|0.00|c|m|u|p|pn|W1|D1|note1"]
      ["TSB|M1|T2|I2|N2|out|2|0.00|c|m|u|p|pn|W1|D2|note2"]
      "corrupted-line" (by decide)).1⟩

/-- C3 counterexample: the WAL round trip is not universal.  A valid
event whose optional `note` is empty serializes to a line with a
trailing `'|'`; the `getline`-based splitter drops the final empty
token, yielding 15 fields instead of 16, so parsing the line back
fails instead of reproducing the event. -/
theorem C3_empty_note_breaks_roundtrip :
    deserializeTransaction (serializeTransaction "2025-01-01T00:00:00.000Z" "M1"
      ⟨"T1", "I1", "Widget", "in", 5, "2024-06-01T00:00:00", "M1", "", "cat",
        "mod", "pcs", 0, "P1", "PN", "W1", "D1"⟩) = none ∧
    (splitPipe (serializeTransaction "2025-01-01T00:00:00.000Z" "M1"
      ⟨"T1", "I1", "Widget", "in", 5, "2024-06-01T00:00:00", "M1", "", "cat",
        "mod", "pcs", 0, "P1", "PN", "W1", "D1"⟩)).length = 15 := by
  constructor
  · decide
  · decide

/-- C3 (amended): for every tenant id and event whose serialized fields
are `'|'`-free, whose note is non-empty, whose quantity is within the
32-bit `int` range and whose price is an exact multiple of 0.01,
parsing the serialized WAL line back succeeds and reproduces the
fifteen caller-supplied fields exactly; the sixteenth field, the
timestamp, is the WAL-assigned receipt time. -/
theorem C3_roundtrip_clean_fields (walTs m : String) (t : TransactionRecord)
    (hmp : pipeFree m = true) (hc : walClean walTs t) :
    deserializeTransaction (serializeTransaction walTs m t) =
      some (m, { t with timestamp := walTs, manager_id := "" }) := by
  obtain ⟨wpr, w01, w02, w03, w04, w05, w06, w07, w08, w09, w10, w11, w12,
    w13, w14, w15, w16⟩ := hc
  exact deserialize_serialize walTs m t w01 hmp w02 w03 w04 w05 w06 w07 w08 w09
    w10 w11 w12 w13 w14 w15 w16 wpr

/-- C3 witness. -/
theorem C3_roundtrip_clean_fields_witness :
    pipeFree "M1" = true ∧
    walClean "2025-01-01T00:00:00.000Z"
      ⟨"T1", "I1", "Widget", "in", 5, "2024-06-01T00:00:00", "M1", "memo",
        "cat", "mod", "pcs", 0, "P1", "PN", "W1", "D1"⟩ ∧
    deserializeTransaction (serializeTransaction "2025-01-01T00:00:00.000Z" "M1"
      ⟨"T1", "I1", "Widget", "in", 5, "2024-06-01T00:00:00", "M1", "memo",
        "cat", "mod", "pcs", 0, "P1", "PN", "W1", "D1"⟩) =
      some ("M1",
        { (⟨"T1", "I1", "Widget", "in", 5, "2024-06-01T00:00:00", "M1", "memo",
            "cat", "mod", "pcs", 0, "P1", "PN", "W1", "D1"⟩ : TransactionRecord)
          with timestamp := "2025-01-01T00:00:00.000Z", manager_id := "" }) :=
  ⟨by decide,
    ⟨⟨0, by simp⟩, by decide⟩,
    C3_roundtrip_clean_fields "2025-01-01T00:00:00.000Z" "M1" _ (by decide)
      ⟨⟨0, by simp⟩, by decide⟩⟩

/-- The event used in the C4 counterexample: its caller-supplied
timestamp differs from the WAL receipt time. -/
def c4Event : TransactionRecord :=
  ⟨"T1", "I1", "Widget", "in", 5, "2024-06-01T00:00:00", "M1", "memo",
    "cat", "mod", "pcs", 0, "P1", "PN", "W1", "D1"⟩

/-- The database after one successful persistent append of `c4Event`. -/
def c4PreState : DBState :=
  appendAll "M1" (mkDatabase true [])
    [("2025-01-01T00:00:00.000Z", c4Event)]

/-- C4 counterexample: recovery does not return the same events.  The
recovered record carries the WAL receipt timestamp, not the
caller-supplied event timestamp, so after a restart `getTransactions`
differs from its pre-restart value. -/
theorem C4_recovery_changes_timestamps :
    getTransactions (restartDatabase c4PreState) "M1" ≠
      getTransactions c4PreState "M1" := by
  intro h
  have h2 := congrArg (List.map fun e => e.timestamp) h
  revert h2
  decide

/-- C4 (amended): for a run of valid, distinct-id, WAL-clean events of
one tenant appended with persistence enabled under non-decreasing WAL
receipt timestamps, a simulated restart (re-running WAL recovery and
the constructor's restore) yields the same events in the same order,
except that each event's timestamp field is replaced by its WAL receipt
time (and the unserialized `manager_id` mirror field is reset). -/
theorem C4_recovery_retimestamped_fidelity (manager_id : String)
    (prs : List (String × TransactionRecord))
    (hm : manager_id ≠ "") (hmp : pipeFree manager_id = true)
    (hv : ∀ p ∈ prs, validFields p.2)
    (hc : ∀ p ∈ prs, walClean p.1 p.2)
    (hnd : prs.Pairwise fun p q => p.2.trans_id ≠ q.2.trans_id)
    (hts : (prs.map Prod.fst).Chain' (· ≤ ·)) :
    getTransactions (appendAll manager_id (mkDatabase true []) prs) manager_id =
      prs.map Prod.snd ∧
    getTransactions
        (restartDatabase (appendAll manager_id (mkDatabase true []) prs))
        manager_id =
      prs.map retagWAL := by
  have hstart : mkDatabase true [] = walRunState manager_id [] := rfl
  have hrun : appendAll manager_id (mkDatabase true []) prs =
      walRunState manager_id prs := by
    rw [hstart]
    have h := appendAll_walRun manager_id hm prs []
      (by simpa using hv) (by simpa using hnd)
    simpa using h
  rw [hrun, getTransactions_walRunState]
  refine ⟨rfl, ?_⟩
  unfold restartDatabase
  have hlines : (walRunState manager_id prs).walLines =
      prs.map fun p => serializeTransaction p.1 manager_id p.2 := rfl
  rw [hlines]
  have hrl := recoverLines_serialized manager_id prs hmp hc
  have hgrp := recoverFromWAL_single manager_id _ (prs.map retagWAL) hrl
  by_cases hemp : prs = []
  · subst hemp
    rfl
  · have hretag_ne : prs.map retagWAL ≠ [] := by
      simpa using hemp
    rw [if_neg hretag_ne] at hgrp
    have hval : validateDataIntegrity (recoverFromWAL
        (prs.map fun p => serializeTransaction p.1 manager_id p.2)) = true := by
      rw [hgrp, validateDataIntegrity_iff]
      intro p hp
      rw [List.mem_singleton] at hp
      subst hp
      constructor
      · show (prs.map retagWAL).Chain' (fun a b => a.timestamp ≤ b.timestamp)
        rw [List.chain'_map]
        rw [List.chain'_map] at hts
        exact hts
      · intro e he
        obtain ⟨q, hq, rfl⟩ := List.mem_map.mp he
        obtain ⟨h1, h2, h3, h4⟩ := hv q hq
        exact ⟨h1, h2, h3, h4⟩
    have hmg : (mkDatabase true
        (prs.map fun p => serializeTransaction p.1 manager_id p.2)).managers =
        [(manager_id, ⟨prs.map retagWAL, (prs.map retagWAL).length⟩)] := by
      rw [mkDatabase_managers, if_pos hval, hgrp]
      rfl
    unfold getTransactions
    rw [hmg]
    show (match (if manager_id = manager_id then
        some (⟨prs.map retagWAL, (prs.map retagWAL).length⟩ : ManagerData)
      else none) with
      | none => ([] : List TransactionRecord)
      | some d => d.transactions.take d.count) = _
    rw [if_pos rfl]
    exact List.take_length _

/-- C4 witness. -/
theorem C4_recovery_retimestamped_fidelity_witness :
    (∀ p ∈ [(("2025-01-01T00:00:00.000Z" : String), c4Event)], validFields p.2) ∧
    (∀ p ∈ [(("2025-01-01T00:00:00.000Z" : String), c4Event)], walClean p.1 p.2) ∧
    getTransactions
        (restartDatabase (appendAll "M1" (mkDatabase true [])
          [("2025-01-01T00:00:00.000Z", c4Event)])) "M1" =
      [("2025-01-01T00:00:00.000Z", c4Event)].map retagWAL :=
  have hv : ∀ p ∈ [(("2025-01-01T00:00:00.000Z" : String), c4Event)],
      validFields p.2 := by
    intro p hp
    rw [List.mem_singleton] at hp
    subst hp
    exact ⟨by decide, by decide, by decide, by decide⟩
  have hc : ∀ p ∈ [(("2025-01-01T00:00:00.000Z" : String), c4Event)],
      walClean p.1 p.2 := by
    intro p hp
    rw [List.mem_singleton] at hp
    subst hp
    exact ⟨⟨0, by simp [c4Event]⟩, by decide⟩
  ⟨hv, hc,
    (C4_recovery_retimestamped_fidelity "M1"
      [("2025-01-01T00:00:00.000Z", c4Event)] (by decide) (by decide) hv hc
      (by simp) (by simp)).2⟩

/-- First scenario event of C8: inbound, quantity 10, price 2.00. -/
def invEvent1 : TransactionRecord :=
  ⟨"T1", "I1", "Item", "in", 10, "TS1", "M1", "n", "c", "m", "u", 2,
    "P", "PN", "W1", "D1"⟩

/-- Second scenario event of C8: inbound, quantity 10, price 4.00. -/
def invEvent2 : TransactionRecord :=
  { invEvent1 with trans_id := "T2", unit_price := 4, timestamp := "TS2" }

/-- Third scenario event of C8: outbound, quantity 25. -/
def invEvent3 : TransactionRecord :=
  { invEvent1 with
    trans_id := "T3"
    type := "out"
    quantity := 25
    timestamp := "TS3" }

/-- The database after appending the two inbound scenario events. -/
def invDB2 : DBState :=
  (appendTransaction
    (appendTransaction ⟨[], [], false, false⟩ true "TS1" "M1" invEvent1).2
    true "TS2" "M1" invEvent2).2

/-- The database after additionally appending the outbound event. -/
def invDB3 : DBState :=
  (appendTransaction invDB2 true "TS3" "M1" invEvent3).2

/-- C8: `calculateInventory` folds the tenant's published events grouped
by `(warehouse_id, item_id)` — inbound re-averages the price from the
pre-step total value when the new quantity is positive and leaves it
unchanged otherwise, outbound only subtracts quantity — and the returned
per-warehouse map contains exactly the positions with positive quantity.
In particular `in(10, 2.00)` then `in(10, 4.00)` on one item yields
quantity 20 at average price 3.00, and a further `out(25)` drives the
quantity to −5 so the position disappears from the output. -/
theorem C8_inventory_fold :
    (∀ (st : DBState) (manager_id : String) (k : String × String),
      alookup (calcInventoryMap (getTransactions st manager_id)) k =
        ((getTransactions st manager_id).filter
          (fun t => (t.warehouse_id, t.item_id) = k)).foldl
          (fun o t => some (inventoryStep
            (o.getD ⟨t.item_id, t.warehouse_id, 0, 0⟩) t)) none) ∧
    (∀ (r : InventoryRecord) (t : TransactionRecord),
      (t.isInbound = true →
        (inventoryStep r t).quantity = r.quantity + t.quantity ∧
        (inventoryStep r t).avg_price =
          (if 0 < r.quantity + t.quantity then
            ((r.quantity : ℚ) * r.avg_price + (t.quantity : ℚ) * t.unit_price) /
              ((r.quantity + t.quantity : ℤ) : ℚ)
          else r.avg_price)) ∧
      (t.isInbound = false →
        (inventoryStep r t).quantity = r.quantity - t.quantity ∧
        (inventoryStep r t).avg_price = r.avg_price)) ∧
    (∀ (st : DBState) (manager_id w : String) (r : InventoryRecord),
      r ∈ calculateInventory st manager_id w ↔
        (∃ i, ((w, i), r) ∈ calcInventoryMap (getTransactions st manager_id)) ∧
          0 < r.quantity) ∧
    calculateInventory invDB2 "M1" "W1" = [⟨"I1", "W1", 20, 3⟩] ∧
    calculateInventory invDB3 "M1" "W1" = [] := by
  refine ⟨fun st mid k => alookup_calcInventoryMap _ k, ?_, mem_calculateInventory,
    ?_, ?_⟩
  · intro r t
    constructor
    · intro hin
      unfold inventoryStep
      rw [if_pos hin]
      constructor
      · rfl
      · show (if 0 < r.quantity + t.quantity then _ else r.avg_price) = _
        split <;> [skip; rfl]
        push_cast
        rfl
    · intro hout
      unfold inventoryStep
      rw [if_neg (by simp [hout])]
      exact ⟨rfl, rfl⟩
  · have h2 : getTransactions invDB2 "M1" = [invEvent1, invEvent2] := by decide
    unfold calculateInventory
    rw [h2]
    show List.filterMap _ (calcInventoryMap [invEvent1, invEvent2]) = _
    unfold calcInventoryMap
    simp only [List.foldl_cons, List.foldl_nil, aupdate, alookup, invEvent1,
      invEvent2, inventoryStep, TransactionRecord.isInbound]
    norm_num [List.filterMap]
  · have h3 : getTransactions invDB3 "M1" = [invEvent1, invEvent2, invEvent3] := by
      decide
    unfold calculateInventory
    rw [h3]
    show List.filterMap _ (calcInventoryMap [invEvent1, invEvent2, invEvent3]) = _
    unfold calcInventoryMap
    simp only [List.foldl_cons, List.foldl_nil, aupdate, alookup, invEvent1,
      invEvent2, invEvent3, inventoryStep, TransactionRecord.isInbound]
    norm_num [List.filterMap, show ¬("out" : String) = "in" from by decide]

/-- C9: in `buildItemSummaryMap`, the latest name/category/model/unit/
price are refreshed only by an event with a strictly greater timestamp
than the stored `last_updated`; an event whose timestamp is not greater
(in particular an equal-timestamp event) changes only the running
quantity, so for two identical-timestamp events of one item the
first-seen event's fields are retained. -/
theorem C9_latest_fields_strict_timestamp :
    (∀ (s : ItemSummary) (t : TransactionRecord),
      t.timestamp ≤ s.last_updated →
      summaryStep s t = { s with total_quantity :=
        if t.isInbound then s.total_quantity + t.quantity
        else s.total_quantity - t.quantity }) ∧
    (∀ e1 e2 : TransactionRecord, e1.item_id = e2.item_id →
      e1.timestamp = e2.timestamp →
      alookup (buildItemSummaryMap [e1, e2]) e1.item_id = some
        { item_id := e1.item_id, item_name := e1.item_name,
          category := e1.category, model := e1.model, unit := e1.unit,
          latest_price := e1.unit_price,
          total_quantity :=
            (if e1.isInbound then e1.quantity else -e1.quantity) +
            (if e2.isInbound then e2.quantity else -e2.quantity),
          last_updated := e1.timestamp }) := by
  have hstep : ∀ (s : ItemSummary) (t : TransactionRecord),
      t.timestamp ≤ s.last_updated →
      summaryStep s t = { s with total_quantity :=
        if t.isInbound then s.total_quantity + t.quantity
        else s.total_quantity - t.quantity } := by
    intro s t hle
    unfold summaryStep
    rw [if_neg]
    rw [Bool.not_eq_true, show ({ s with total_quantity :=
      if t.isInbound then s.total_quantity + t.quantity
      else s.total_quantity - t.quantity } : ItemSummary).last_updated =
        s.last_updated from rfl]
    exact (strLt_false_iff_le t.timestamp s.last_updated).mpr hle
  refine ⟨hstep, fun e1 e2 hid hts => ?_⟩
  show alookup ((aupdate (summaryInit e2) (fun s => summaryStep s e2)
    (aupdate (summaryInit e1) (fun s => summaryStep s e1) [] e1.item_id))
      e2.item_id) e1.item_id = _
  rw [← hid]
  rw [alookup_aupdate_self, alookup_aupdate_self]
  show some (summaryStep (summaryStep (summaryInit e1) e1) e2) = _
  rw [hstep (summaryInit e1) e1 (le_of_eq rfl),
    hstep _ e2 (by show e2.timestamp ≤ e1.timestamp; rw [hts])]
  simp only [summaryInit, Option.some.injEq, ItemSummary.mk.injEq, true_and,
    and_true]
  split_ifs <;> omega

/-- C8 witness (for the conditional per-step conjunct). -/
theorem C8_inventory_fold_witness :
    invEvent1.isInbound = true ∧
    (inventoryStep ⟨"I1", "W1", 0, 0⟩ invEvent1).quantity =
      (⟨"I1", "W1", 0, 0⟩ : InventoryRecord).quantity + invEvent1.quantity ∧
    invEvent3.isInbound = false ∧
    (inventoryStep ⟨"I1", "W1", 20, 3⟩ invEvent3).quantity =
      (⟨"I1", "W1", 20, 3⟩ : InventoryRecord).quantity - invEvent3.quantity :=
  ⟨by decide,
    ((C8_inventory_fold.2.1 ⟨"I1", "W1", 0, 0⟩ invEvent1).1 (by decide)).1,
    by decide,
    ((C8_inventory_fold.2.1 ⟨"I1", "W1", 20, 3⟩ invEvent3).2 (by decide)).1⟩

/-- An equal-timestamp second event for the C9 witness: same item and
timestamp as `invEvent1` but different descriptive fields. -/
def tieEvent : TransactionRecord :=
  { invEvent1 with
    trans_id := "T2"
    item_name := "Other"
    category := "c2"
    model := "m2"
    unit := "u2"
    unit_price := 9 }

/-- C9 witness. -/
theorem C9_latest_fields_strict_timestamp_witness :
    (invEvent1.timestamp ≤
      (⟨"I1", "N", "c", "m", "u", 5, 7, "TS1"⟩ : ItemSummary).last_updated) ∧
    summaryStep ⟨"I1", "N", "c", "m", "u", 5, 7, "TS1"⟩ invEvent1 =
      { (⟨"I1", "N", "c", "m", "u", 5, 7, "TS1"⟩ : ItemSummary) with
        total_quantity :=
          if invEvent1.isInbound then
            (⟨"I1", "N", "c", "m", "u", 5, 7, "TS1"⟩ : ItemSummary).total_quantity +
              invEvent1.quantity
          else
            (⟨"I1", "N", "c", "m", "u", 5, 7, "TS1"⟩ : ItemSummary).total_quantity -
              invEvent1.quantity } ∧
    invEvent1.item_id = tieEvent.item_id ∧
    invEvent1.timestamp = tieEvent.timestamp ∧
    alookup (buildItemSummaryMap [invEvent1, tieEvent]) invEvent1.item_id = some
      { item_id := invEvent1.item_id, item_name := invEvent1.item_name,
        category := invEvent1.category, model := invEvent1.model,
        unit := invEvent1.unit, latest_price := invEvent1.unit_price,
        total_quantity :=
          (if invEvent1.isInbound then invEvent1.quantity
            else -invEvent1.quantity) +
          (if tieEvent.isInbound then tieEvent.quantity else -tieEvent.quantity),
        last_updated := invEvent1.timestamp } :=
  ⟨le_refl _,
    C9_latest_fields_strict_timestamp.1 ⟨"I1", "N", "c", "m", "u", 5, 7, "TS1"⟩
      invEvent1 (le_refl _),
    by decide, by decide,
    C9_latest_fields_strict_timestamp.2 invEvent1 tieEvent (by decide) (by decide)⟩

end Ledger
